import Mathlib

/-!
Verification development for the lead-macro time-series store and
lead-lag analytics engine.

The store layer (observation / series / price-bar upserts) is embedded as
assoc-list tables over exact numerals (`ℚ`, `Int`, `Nat`), with the SQL
"insert ... on conflict do update" statements modelled as keyed upserts.
The analytics layer (monthly resampling, z-score normalisation, lag
correlation, information coefficient) is embedded over `ℝ`, with pandas
missing values (`NaN`) modelled as `Option.none` and the pandas positional
`shift` modelled as a positional shift over the series index.
-/

set_option autoImplicit false

namespace LeadMacro

/-! ### Observation store (core.observation)

A row of `core.observation`.  `asof` is the audit stamp set by the store
(`now()` inside the upsert statement); write times are modelled as `Nat`. -/

structure Obs where
  series_id : Nat
  ts : Int
  value : ℚ
  asof : Nat
deriving DecidableEq, Repr

/-- Key predicate of the unique index behind `ON CONFLICT (series_id, ts)`. -/
def keyMatch (sid : Nat) (ts : Int) (o : Obs) : Bool :=
  o.series_id == sid && o.ts == ts

/-- One-row upsert: `INSERT ... ON CONFLICT (series_id, ts) DO UPDATE SET
value = EXCLUDED.value, asof = now()`.  On conflict the existing row's
`value` is replaced and `asof` is restamped with the write time; otherwise
a fresh row is appended. -/
def obsUpsertRow (now : Nat) (sid : Nat) (ts : Int) (v : ℚ) : List Obs → List Obs
  | [] => [⟨sid, ts, v, now⟩]
  | o :: t =>
    if keyMatch sid ts o then ⟨sid, ts, v, now⟩ :: t
    else o :: obsUpsertRow now sid ts v t

/-- A raw input row handed to `upsert_observations`: timestamp and value may
be null (`None` in the Python dicts). -/
structure ObsRawRow where
  ts : Option Int
  value : Option ℚ
deriving DecidableEq, Repr

/-- Fuel-driven worker for `chunksOf`; the fuel is an upper bound on the
list length, which makes the recursion structural (and kernel-reducible). -/
def chunksOfGo {α : Type} (c : Nat) : Nat → List α → List (List α)
  | _, [] => []
  | 0, _ :: _ => []
  | fuel + 1, a :: l => (a :: l.take (c - 1)) :: chunksOfGo c fuel (l.drop (c - 1))

/-- Batching of `range(0, len(rows), chunk)`: splits a list into consecutive
chunks.  For `c ≥ 1` every chunk has size at most `c` and the chunks
concatenate back to the input. -/
def chunksOf {α : Type} (c : Nat) (l : List α) : List (List α) :=
  chunksOfGo c l.length l

/-- Per-batch payload construction of `upsert_observations`: rows with a null
`ts` or null `value` are skipped (`if ts is None or val is None: continue`). -/
def obsPayload (batch : List ObsRawRow) : List (Int × ℚ) :=
  batch.filterMap (fun r =>
    match r.ts, r.value with
    | some t, some v => some (t, v)
    | _, _ => none)

/-- Executing one batched upsert statement: the payload rows are applied in
order against the table. -/
def applyObsPayload (now sid : Nat) (p : List (Int × ℚ)) (t : List Obs) : List Obs :=
  p.foldl (fun acc r => obsUpsertRow now sid r.1 r.2 acc) t

/-- `upsert_observations(conn, series_id, df, chunk=1000)` from
`src/ingest/ingest_fred_generic.py`: iterate the rows in chunks, drop rows
with null `ts`/`value` while building each payload, execute the batch, and
accumulate `total += len(payload)`.  Returns the new table and the count. -/
def upsert_observations (now sid : Nat) (rows : List ObsRawRow) (chunk : Nat)
    (t : List Obs) : List Obs × Nat :=
  (chunksOf chunk rows).foldl
    (fun acc batch =>
      let payload := obsPayload batch
      (applyObsPayload now sid payload acc.1, acc.2 + payload.length))
    (t, 0)

/-- Store invariant maintained by the unique index: at most one row per
`(series_id, ts)`. -/
def ObsWf (t : List Obs) : Prop :=
  t.Pairwise (fun a b => ¬(a.series_id = b.series_id ∧ a.ts = b.ts))

/-! ### Series registry (core.series) -/

structure SeriesRow where
  series_id : Nat
  source_id : Nat
  code : String
  asset_class : String
  freq : String
  tz : String
deriving DecidableEq, Repr

namespace Fred

/-- `upsert_series` of `src/ingest/ingest_fred_generic.py` (also
`ingest_fred_t10y3m.py`, `ingest_spx.py`): `INSERT ... ON CONFLICT
(source_id, code) DO UPDATE SET asset_class, freq, tz` returning the
`series_id`.  A row conflicts only when both `source_id` and `code` match;
otherwise a fresh row (with the next free id) is inserted. -/
def upsert_series (nid : Nat) (source_id : Nat) (code asset_class freq tz : String) :
    List SeriesRow → List SeriesRow × Nat
  | [] => ([⟨nid, source_id, code, asset_class, freq, tz⟩], nid)
  | r :: t =>
    if r.source_id == source_id && r.code == code then
      ({ r with asset_class := asset_class, freq := freq, tz := tz } :: t, r.series_id)
    else
      let p := upsert_series nid source_id code asset_class freq tz t
      (r :: p.1, p.2)

end Fred

namespace FxCsv

/-- `upsert_series` of `src/ingest/ingest_fx_csv.py`: `INSERT ... ON CONFLICT
(code) DO UPDATE SET source_id, asset_class, freq` returning the
`series_id`.  A row conflicts on `code` alone, and the conflict branch
reassigns `source_id` to the new value; a fresh insert takes the column
default `tz = 'UTC'`. -/
def upsert_series (nid : Nat) (source_id : Nat) (code asset_class freq : String) :
    List SeriesRow → List SeriesRow × Nat
  | [] => ([⟨nid, source_id, code, asset_class, freq, "UTC"⟩], nid)
  | r :: t =>
    if r.code == code then
      ({ r with source_id := source_id, asset_class := asset_class, freq := freq } :: t,
        r.series_id)
    else
      let p := upsert_series nid source_id code asset_class freq t
      (r :: p.1, p.2)

end FxCsv

/-! ### Basic store lemmas -/

theorem obsUpsertRow_filter_keyMatch (now sid : Nat) (ts : Int) (v : ℚ) :
    ∀ t : List Obs, ObsWf t →
      (obsUpsertRow now sid ts v t).filter (keyMatch sid ts) = [⟨sid, ts, v, now⟩] := by
  intro t
  induction t with
  | nil =>
    intro _
    simp [obsUpsertRow, List.filter, keyMatch]
  | cons o t ih =>
    intro hwf
    have hwf' : ObsWf t := (List.pairwise_cons.mp hwf).2
    by_cases h : keyMatch sid ts o = true
    · have hkey : o.series_id = sid ∧ o.ts = ts := by
        simpa [keyMatch, Bool.and_eq_true, beq_iff_eq] using h
      have hnone : ∀ b ∈ t, keyMatch sid ts b = false := by
        intro b hb
        have := (List.pairwise_cons.mp hwf).1 b hb
        simp only [keyMatch, Bool.and_eq_true, beq_iff_eq]
        simp only [hkey.1, hkey.2] at this
        by_contra hcontra
        rw [Bool.not_eq_false, Bool.and_eq_true, beq_iff_eq, beq_iff_eq] at hcontra
        exact this ⟨hcontra.1.symm, hcontra.2.symm⟩
      have hfilt : t.filter (keyMatch sid ts) = [] := by
        rw [List.filter_eq_nil_iff]
        intro b hb
        simp [hnone b hb]
      have hstep : obsUpsertRow now sid ts v (o :: t) = ⟨sid, ts, v, now⟩ :: t := by
        simp [obsUpsertRow, h]
      rw [hstep, List.filter_cons, hfilt]
      simp [keyMatch]
    · have h' : keyMatch sid ts o = false := by
        simpa using h
      have hstep : obsUpsertRow now sid ts v (o :: t) = o :: obsUpsertRow now sid ts v t := by
        simp [obsUpsertRow, h']
      rw [hstep, List.filter_cons, h']
      simpa using ih hwf'

theorem obsUpsertRow_length (now sid : Nat) (ts : Int) (v : ℚ) :
    ∀ t : List Obs,
      (obsUpsertRow now sid ts v t).length =
        if t.any (keyMatch sid ts) then t.length else t.length + 1 := by
  intro t
  induction t with
  | nil => simp [obsUpsertRow]
  | cons o t ih =>
    by_cases h : keyMatch sid ts o = true
    · have hstep : obsUpsertRow now sid ts v (o :: t) = ⟨sid, ts, v, now⟩ :: t := by
        simp [obsUpsertRow, h]
      simp [hstep, List.any_cons, h]
    · have h' : keyMatch sid ts o = false := by simpa using h
      have hstep : obsUpsertRow now sid ts v (o :: t) = o :: obsUpsertRow now sid ts v t := by
        simp [obsUpsertRow, h']
      simp only [hstep, List.length_cons, List.any_cons, h', Bool.false_or, ih]
      by_cases ht : t.any (keyMatch sid ts) <;> simp [ht]

theorem obsUpsertRow_any (now sid : Nat) (ts : Int) (v : ℚ) :
    ∀ t : List Obs, (obsUpsertRow now sid ts v t).any (keyMatch sid ts) = true := by
  intro t
  induction t with
  | nil => simp [obsUpsertRow, keyMatch]
  | cons o t ih =>
    by_cases h : keyMatch sid ts o = true
    · have hstep : obsUpsertRow now sid ts v (o :: t) = ⟨sid, ts, v, now⟩ :: t := by
        simp [obsUpsertRow, h]
      simp [hstep, List.any_cons, keyMatch]
    · have h' : keyMatch sid ts o = false := by simpa using h
      have hstep : obsUpsertRow now sid ts v (o :: t) = o :: obsUpsertRow now sid ts v t := by
        simp [obsUpsertRow, h']
      simp [hstep, List.any_cons, ih]

theorem obsUpsertRow_mem (now sid : Nat) (ts : Int) (v : ℚ) :
    ∀ (t : List Obs) (b : Obs), b ∈ obsUpsertRow now sid ts v t →
      b ∈ t ∨ b = ⟨sid, ts, v, now⟩ := by
  intro t
  induction t with
  | nil =>
    intro b hb
    simp [obsUpsertRow] at hb
    exact Or.inr hb
  | cons o t ih =>
    intro b hb
    by_cases h : keyMatch sid ts o = true
    · simp only [obsUpsertRow, h, if_true, List.mem_cons] at hb
      rcases hb with hb | hb
      · exact Or.inr hb
      · exact Or.inl (List.mem_cons_of_mem _ hb)
    · have h' : keyMatch sid ts o = false := by simpa using h
      simp only [obsUpsertRow, h', Bool.false_eq_true, if_false, List.mem_cons] at hb
      rcases hb with hb | hb
      · exact Or.inl (by simp [hb])
      · rcases ih b hb with hb' | hb'
        · exact Or.inl (List.mem_cons_of_mem _ hb')
        · exact Or.inr hb'

theorem obsUpsertRow_wf (now sid : Nat) (ts : Int) (v : ℚ) :
    ∀ t : List Obs, ObsWf t → ObsWf (obsUpsertRow now sid ts v t) := by
  intro t
  induction t with
  | nil =>
    intro _
    simp [obsUpsertRow, ObsWf]
  | cons o t ih =>
    intro hwf
    rcases List.pairwise_cons.mp hwf with ⟨hhead, htail⟩
    by_cases h : keyMatch sid ts o = true
    · have hkey : o.series_id = sid ∧ o.ts = ts := by
        simpa [keyMatch, Bool.and_eq_true, beq_iff_eq] using h
      have hstep : obsUpsertRow now sid ts v (o :: t) = ⟨sid, ts, v, now⟩ :: t := by
        simp [obsUpsertRow, h]
      rw [ObsWf, hstep]
      refine List.pairwise_cons.mpr ⟨?_, htail⟩
      intro b hb hcontra
      exact hhead b hb ⟨by rw [hkey.1]; exact hcontra.1, by rw [hkey.2]; exact hcontra.2⟩
    · have h' : keyMatch sid ts o = false := by simpa using h
      have hno : ¬(o.series_id = sid ∧ o.ts = ts) := by
        intro hcontra
        simp [keyMatch, hcontra.1, hcontra.2] at h'
      have hstep : obsUpsertRow now sid ts v (o :: t) = o :: obsUpsertRow now sid ts v t := by
        simp [obsUpsertRow, h']
      rw [ObsWf, hstep]
      refine List.pairwise_cons.mpr ⟨?_, ih htail⟩
      intro b hb
      rcases obsUpsertRow_mem now sid ts v t b hb with hb' | hb'
      · exact hhead b hb'
      · intro hcontra
        rw [hb'] at hcontra
        exact hno hcontra

/-! ### Batching lemmas -/

theorem chunksOfGo_flatten {α : Type} (c : Nat) :
    ∀ (fuel : Nat) (l : List α), l.length ≤ fuel → (chunksOfGo c fuel l).flatten = l := by
  intro fuel
  induction fuel with
  | zero =>
    intro l h
    cases l with
    | nil => simp [chunksOfGo]
    | cons a t => simp at h
  | succ n ih =>
    intro l h
    cases l with
    | nil => simp [chunksOfGo]
    | cons a t =>
      simp only [chunksOfGo, List.flatten_cons]
      rw [ih (t.drop (c - 1)) (by simp only [List.length_drop]; simp at h; omega)]
      simp [List.take_append_drop]

theorem chunksOf_flatten {α : Type} (c : Nat) (l : List α) :
    (chunksOf c l).flatten = l :=
  chunksOfGo_flatten c l.length l le_rfl

theorem chunksOfGo_length_le {α : Type} (c : Nat) (hc : 1 ≤ c) :
    ∀ (fuel : Nat) (l : List α), ∀ b ∈ chunksOfGo c fuel l, b.length ≤ c := by
  intro fuel
  induction fuel with
  | zero =>
    intro l b hb
    cases l with
    | nil => simp [chunksOfGo] at hb
    | cons a t => simp [chunksOfGo] at hb
  | succ n ih =>
    intro l b hb
    cases l with
    | nil => simp [chunksOfGo] at hb
    | cons a t =>
      simp only [chunksOfGo, List.mem_cons] at hb
      rcases hb with hb | hb
      · subst hb
        simp only [List.length_cons, List.length_take]
        omega
      · exact ih (t.drop (c - 1)) b hb

theorem chunksOf_length_le {α : Type} (c : Nat) (hc : 1 ≤ c) (l : List α) :
    ∀ b ∈ chunksOf c l, b.length ≤ c :=
  chunksOfGo_length_le c hc l.length l

theorem applyObsPayload_append (now sid : Nat) (p q : List (Int × ℚ)) (t : List Obs) :
    applyObsPayload now sid (p ++ q) t = applyObsPayload now sid q (applyObsPayload now sid p t) := by
  simp [applyObsPayload, List.foldl_append]

/-- The chunked upsert loop is equivalent to validating the whole row list
once and applying the full payload: batching changes neither the final
table nor the returned count. -/
theorem upsert_observations_spec (now sid : Nat) (rows : List ObsRawRow) (chunk : Nat)
    (t : List Obs) :
    upsert_observations now sid rows chunk t
      = (applyObsPayload now sid (obsPayload rows) t, (obsPayload rows).length) := by
  have key : ∀ (chunks : List (List ObsRawRow)) (t0 : List Obs) (n : Nat),
      chunks.foldl
        (fun acc batch =>
          let payload := obsPayload batch
          (applyObsPayload now sid payload acc.1, acc.2 + payload.length))
        (t0, n)
      = (applyObsPayload now sid (obsPayload chunks.flatten) t0,
          n + (obsPayload chunks.flatten).length) := by
    intro chunks
    induction chunks with
    | nil => intro t0 n; simp [obsPayload, applyObsPayload]
    | cons b bs ih =>
      intro t0 n
      simp only [List.foldl_cons, List.flatten_cons]
      rw [ih]
      have hsplit : obsPayload (b ++ bs.flatten) = obsPayload b ++ obsPayload bs.flatten := by
        simp [obsPayload, List.filterMap_append]
      rw [hsplit, applyObsPayload_append]
      simp [Nat.add_assoc]
  unfold upsert_observations
  rw [key, chunksOf_flatten]
  simp

theorem obsPayload_length (rows : List ObsRawRow) :
    (obsPayload rows).length
      = (rows.filter (fun r => r.ts.isSome && r.value.isSome)).length := by
  induction rows with
  | nil => simp [obsPayload]
  | cons r rows ih =>
    rcases hts : r.ts with _ | tv <;> rcases hv : r.value with _ | vv <;>
      simp [obsPayload, List.filter_cons, hts, hv, List.filterMap_cons] at ih ⊢ <;>
      omega

/-! ### C1: observation upsert idempotence -/

/-- C1.  Writing `(ts, v1)` and then `(ts, v2)` for the same series through
`upsert_observations` leaves exactly one stored row for `(series_id, ts)`;
that row holds the second value `v2` with `asof` restamped to the second
write time, and the table size does not grow on the second write. -/
theorem c1_observation_upsert_idempotent (sid : Nat) (ts : Int) (v1 v2 : ℚ)
    (now1 now2 chunk : Nat) (t : List Obs) (hwf : ObsWf t) :
    ((upsert_observations now2 sid [⟨some ts, some v2⟩] chunk
        (upsert_observations now1 sid [⟨some ts, some v1⟩] chunk t).1).1.filter
          (keyMatch sid ts) = [⟨sid, ts, v2, now2⟩]) ∧
    (upsert_observations now2 sid [⟨some ts, some v2⟩] chunk
        (upsert_observations now1 sid [⟨some ts, some v1⟩] chunk t).1).1.length
      = (upsert_observations now1 sid [⟨some ts, some v1⟩] chunk t).1.length := by
  have hsingle : ∀ (now : Nat) (v : ℚ) (t0 : List Obs),
      (upsert_observations now sid [⟨some ts, some v⟩] chunk t0).1
        = obsUpsertRow now sid ts v t0 := by
    intro now v t0
    rw [upsert_observations_spec]
    simp [obsPayload, applyObsPayload]
  simp only [hsingle]
  have hwf1 : ObsWf (obsUpsertRow now1 sid ts v1 t) := obsUpsertRow_wf now1 sid ts v1 t hwf
  refine ⟨obsUpsertRow_filter_keyMatch now2 sid ts v2 _ hwf1, ?_⟩
  rw [obsUpsertRow_length now2 sid ts v2 (obsUpsertRow now1 sid ts v1 t),
    if_pos (obsUpsertRow_any now1 sid ts v1 t)]

/-- Witness for C1 at concrete inputs: two writes into an empty table. -/
theorem c1_observation_upsert_idempotent_witness :
    ObsWf ([] : List Obs) ∧
      (((upsert_observations 5 1 [⟨some 0, some 3⟩] 1000
          (upsert_observations 4 1 [⟨some 0, some 2⟩] 1000 []).1).1.filter
            (keyMatch 1 0) = [⟨1, 0, 3, 5⟩]) ∧
        (upsert_observations 5 1 [⟨some 0, some 3⟩] 1000
            (upsert_observations 4 1 [⟨some 0, some 2⟩] 1000 []).1).1.length
          = (upsert_observations 4 1 [⟨some 0, some 2⟩] 1000 []).1.length) :=
  ⟨List.Pairwise.nil,
    c1_observation_upsert_idempotent 1 0 2 3 4 5 1000 [] List.Pairwise.nil⟩

/-! ### C2: two conflicting series-uniqueness rules -/

/-- C2.  The FRED/equity path (`ON CONFLICT (source_id, code)`) and the
CSV path (`ON CONFLICT (code)`) enforce different uniqueness invariants on
the same series table.  Starting from a table holding one series with code
`c` owned by source `s1`, registering code `c` under a different source
`s2` inserts a second row with the same code on the FRED path (so `code`
alone is not unique there), while the CSV path keeps a single row keyed by
`c` and reassigns its `source_id` to `s2` (returning the original id). -/
theorem c2_series_uniqueness_divergence (nid sid0 s1 s2 : Nat)
    (c ac fr tz ac2 fr2 tz2 : String) (hs : s1 ≠ s2) :
    ((Fred.upsert_series nid s2 c ac2 fr2 tz2 [⟨sid0, s1, c, ac, fr, tz⟩]).1
        = [⟨sid0, s1, c, ac, fr, tz⟩, ⟨nid, s2, c, ac2, fr2, tz2⟩]) ∧
    ((FxCsv.upsert_series nid s2 c ac2 fr2 [⟨sid0, s1, c, ac, fr, tz⟩]).1
        = [⟨sid0, s2, c, ac2, fr2, tz⟩]) ∧
    (FxCsv.upsert_series nid s2 c ac2 fr2 [⟨sid0, s1, c, ac, fr, tz⟩]).2 = sid0 := by
  refine ⟨?_, ?_, ?_⟩
  · simp [Fred.upsert_series, hs]
  · simp [FxCsv.upsert_series]
  · simp [FxCsv.upsert_series]

/-- Witness for C2 at concrete inputs: sources 1 and 2 both registering
code EURUSD. -/
theorem c2_series_uniqueness_divergence_witness :
    (1 : Nat) ≠ 2 ∧
      (((Fred.upsert_series 9 2 "EURUSD" "fx" "D" "UTC"
            [⟨7, 1, "EURUSD", "other", "H", "UTC"⟩]).1
          = [⟨7, 1, "EURUSD", "other", "H", "UTC"⟩, ⟨9, 2, "EURUSD", "fx", "D", "UTC"⟩]) ∧
        ((FxCsv.upsert_series 9 2 "EURUSD" "fx" "D"
              [⟨7, 1, "EURUSD", "other", "H", "UTC"⟩]).1
            = [⟨7, 2, "EURUSD", "fx", "D", "UTC"⟩]) ∧
        (FxCsv.upsert_series 9 2 "EURUSD" "fx" "D"
            [⟨7, 1, "EURUSD", "other", "H", "UTC"⟩]).2 = 7) :=
  ⟨by decide,
    c2_series_uniqueness_divergence 9 7 1 2 "EURUSD" "other" "H" "UTC" "fx" "D" "UTC"
      (by decide)⟩

/-! ### Price bar store (core.price) -/

/-- A raw input row handed to a price upsert (one record of the fetched
dataframe); every field may be null. -/
structure PriceRawRow where
  ts : Option Int
  open_ : Option ℚ
  high : Option ℚ
  low : Option ℚ
  close : Option ℚ
  adj_close : Option ℚ
  volume : Option Int
deriving DecidableEq, Repr

/-- A row of `core.price`. -/
structure Price where
  series_id : Nat
  ts : Int
  open_ : Option ℚ
  high : Option ℚ
  low : Option ℚ
  close : Option ℚ
  adj_close : Option ℚ
  volume : Option Int
deriving DecidableEq, Repr

def priceKeyMatch (sid : Nat) (ts : Int) (p : Price) : Bool :=
  p.series_id == sid && p.ts == ts

/-- One-row price upsert: `ON CONFLICT (series_id, ts) DO UPDATE` replacing
all OHLCV fields. -/
def priceUpsertRow (row : Price) : List Price → List Price
  | [] => [row]
  | p :: t =>
    if priceKeyMatch row.series_id row.ts p then row :: t
    else p :: priceUpsertRow row t

namespace Spx

/-- Per-batch payload of `upsert_prices` in `src/ingest/ingest_spx.py`: a row
is skipped only when its `ts` is null (`if ts is None: continue`); all other
fields — including a null `close` — are passed through. -/
def spxPayload (sid : Nat) (batch : List PriceRawRow) : List Price :=
  batch.filterMap (fun r =>
    match r.ts with
    | none => none
    | some ts => some ⟨sid, ts, r.open_, r.high, r.low, r.close, r.adj_close, r.volume⟩)

/-- `upsert_prices(conn, series_id, df, chunk=1000)` from
`src/ingest/ingest_spx.py`: chunked upsert of price bars; each batch keeps
the rows with a non-null `ts` and counts `total += len(payload)`. -/
def upsert_prices (sid : Nat) (rows : List PriceRawRow) (chunk : Nat)
    (t : List Price) : List Price × Nat :=
  (chunksOf chunk rows).foldl
    (fun acc batch =>
      let payload := spxPayload sid batch
      (payload.foldl (fun tb p => priceUpsertRow p tb) acc.1, acc.2 + payload.length))
    (t, 0)

end Spx

namespace FxCsv

/-- `upsert_prices(conn, series_id, df)` from `src/ingest/ingest_fx_csv.py`:
sets `adj_close = close`, drops rows with null `ts` or null `close`
(`dropna(subset=["ts", "close"])`), then writes the payload in batches of
1000, returning the number of payload rows. -/
def upsert_prices (sid : Nat) (rows : List PriceRawRow) (t : List Price) :
    List Price × Nat :=
  let df := (rows.map (fun r => { r with adj_close := r.close })).filter
    (fun r => r.ts.isSome && r.close.isSome)
  if df.isEmpty then (t, 0)
  else
    let payload := df.filterMap (fun r =>
      r.ts.map (fun ts => (⟨sid, ts, r.open_, r.high, r.low, r.close, r.adj_close,
        r.volume⟩ : Price)))
    (chunksOf 1000 payload).foldl
      (fun acc batch =>
        (batch.foldl (fun tb p => priceUpsertRow p tb) acc.1, acc.2 + batch.length))
      (t, 0)

end FxCsv

/-! ### C6: row validation and batching in the stores -/

theorem spx_upsert_prices_count (sid : Nat) (rows : List PriceRawRow) (chunk : Nat)
    (t : List Price) :
    (Spx.upsert_prices sid rows chunk t).2 = (Spx.spxPayload sid rows).length := by
  have key : ∀ (chunks : List (List PriceRawRow)) (t0 : List Price) (n : Nat),
      (chunks.foldl
        (fun acc batch =>
          let payload := Spx.spxPayload sid batch
          (payload.foldl (fun tb p => priceUpsertRow p tb) acc.1, acc.2 + payload.length))
        (t0, n)).2
      = n + (Spx.spxPayload sid chunks.flatten).length := by
    intro chunks
    induction chunks with
    | nil => intro t0 n; simp [Spx.spxPayload]
    | cons b bs ih =>
      intro t0 n
      simp only [List.foldl_cons, List.flatten_cons]
      rw [ih]
      have hsplit : Spx.spxPayload sid (b ++ bs.flatten)
          = Spx.spxPayload sid b ++ Spx.spxPayload sid bs.flatten := by
        simp [Spx.spxPayload, List.filterMap_append]
      rw [hsplit]
      simp [Nat.add_assoc]
  unfold Spx.upsert_prices
  rw [key, chunksOf_flatten]
  simp

theorem spxPayload_length (sid : Nat) (rows : List PriceRawRow) :
    (Spx.spxPayload sid rows).length = (rows.filter (fun r => r.ts.isSome)).length := by
  induction rows with
  | nil => simp [Spx.spxPayload]
  | cons r rows ih =>
    rcases hts : r.ts with _ | tv <;>
      simp [Spx.spxPayload, List.filter_cons, hts, List.filterMap_cons] at ih ⊢ <;>
      omega

/-- C6 counterexample.  The claim says both upsert operations drop rows whose
primary value/close is null.  But `upsert_prices` of `ingest_spx.py` checks
only `ts`: a row with a timestamp and a null `close` is written verbatim and
counted, even though the claimed validation would have dropped it (the
validated row list is empty). -/
theorem c6_counterexample :
    ((Spx.upsert_prices 1 [⟨some 0, some 4, some 5, some 2, none, none, some 100⟩]
        1000 []).2 = 1) ∧
    ((Spx.upsert_prices 1 [⟨some 0, some 4, some 5, some 2, none, none, some 100⟩]
        1000 []).1 = [⟨1, 0, some 4, some 5, some 2, none, none, some 100⟩]) ∧
    (([⟨some 0, some 4, some 5, some 2, none, none, some 100⟩] :
        List PriceRawRow).filter (fun r => r.ts.isSome && r.close.isSome) = []) := by
  refine ⟨by decide, by decide, by decide⟩

/-- C6 amended.  The observation upsert drops (and does not count) exactly
the rows with a null `ts` or null `value` and returns the number of rows
written; writes proceed in batches of at most `chunk` (default 1000) rows;
the SPX price-bar upsert, by contrast, drops only rows with a null `ts` —
a null `close` is written as-is — and returns the count after that weaker
validation. -/
theorem c6_validation_and_batching (now sid : Nat) (rows : List ObsRawRow)
    (prows : List PriceRawRow) (chunk : Nat) (t : List Obs) (pt : List Price)
    (hc : 1 ≤ chunk) :
    ((upsert_observations now sid rows chunk t).2
        = (rows.filter (fun r => r.ts.isSome && r.value.isSome)).length) ∧
    ((upsert_observations now sid rows chunk t).1
        = applyObsPayload now sid (obsPayload rows) t) ∧
    (∀ b ∈ chunksOf chunk rows, b.length ≤ chunk) ∧
    ((Spx.upsert_prices sid prows chunk pt).2
        = (prows.filter (fun r => r.ts.isSome)).length) := by
  refine ⟨?_, ?_, chunksOf_length_le chunk hc rows, ?_⟩
  · rw [upsert_observations_spec]
    exact obsPayload_length rows
  · rw [upsert_observations_spec]
  · rw [spx_upsert_prices_count, spxPayload_length]

/-- Witness for C6 (amended) at concrete inputs, batch size 2. -/
theorem c6_validation_and_batching_witness :
    (1 : Nat) ≤ 2 ∧
      (((upsert_observations 9 1 [⟨some 0, some 5⟩, ⟨none, some 6⟩, ⟨some 1, none⟩] 2 []).2
          = (([⟨some 0, some 5⟩, ⟨none, some 6⟩, ⟨some 1, none⟩] :
              List ObsRawRow).filter (fun r => r.ts.isSome && r.value.isSome)).length) ∧
        ((upsert_observations 9 1 [⟨some 0, some 5⟩, ⟨none, some 6⟩, ⟨some 1, none⟩] 2 []).1
          = applyObsPayload 9 1 (obsPayload [⟨some 0, some 5⟩, ⟨none, some 6⟩, ⟨some 1, none⟩]) []) ∧
        (∀ b ∈ chunksOf 2 ([⟨some 0, some 5⟩, ⟨none, some 6⟩, ⟨some 1, none⟩] :
            List ObsRawRow), b.length ≤ 2) ∧
        ((Spx.upsert_prices 1 [⟨some 0, some 4, some 5, some 2, none, none, some 100⟩]
            2 []).2
          = (([⟨some 0, some 4, some 5, some 2, none, none, some 100⟩] :
              List PriceRawRow).filter (fun r => r.ts.isSome)).length)) :=
  ⟨by decide,
    c6_validation_and_batching 9 1 [⟨some 0, some 5⟩, ⟨none, some 6⟩, ⟨some 1, none⟩]
      [⟨some 0, some 4, some 5, some 2, none, none, some 100⟩] 2 [] [] (by decide)⟩

/-! ### Ingestion runners (C9) -/

structure SourceRow where
  source_id : Nat
  name : String
deriving DecidableEq, Repr

/-- `upsert_source`: `INSERT INTO core.source (name) ... ON CONFLICT (name)
DO UPDATE SET name = EXCLUDED.name RETURNING source_id` — idempotent on the
source name. -/
def upsert_source (nid : Nat) (name : String) : List SourceRow → List SourceRow × Nat
  | [] => ([⟨nid, name⟩], nid)
  | r :: t =>
    if r.name == name then (r :: t, r.source_id)
    else
      let p := upsert_source nid name t
      (r :: p.1, p.2)

/-- The mutable database state threaded through an ingestion run; `nextId`
models the id sequence backing fresh inserts. -/
structure DB where
  sources : List SourceRow
  series : List SeriesRow
  obs : List Obs
  prices : List Price
  nextId : Nat
deriving DecidableEq, Repr

/-- One entry of the `series:` list in the YAML config (code plus optional
freq, defaulted to ME by the reader). -/
structure CfgItem where
  code : String
  freq : String
deriving DecidableEq, Repr

/-- The body of the per-series `try` block of `run_from_config`: fetch, check
for an empty response, normalise (drop rows with unparseable ts or missing
value), check for emptiness after normalisation, then register the series
and upsert its observations.  A `false` outcome is a warned series: the
database state is returned unchanged. -/
def runSeriesItem (fetch : String → Except String (List ObsRawRow)) (now fredId : Nat)
    (db : DB) (item : CfgItem) : DB × Bool :=
  match fetch item.code with
  | .error _ => (db, false)
  | .ok raws =>
    if raws.isEmpty then (db, false)
    else
      let good := raws.filter (fun r => r.ts.isSome && r.value.isSome)
      if good.isEmpty then (db, false)
      else
        let sres := Fred.upsert_series db.nextId fredId item.code "macro" item.freq "UTC"
          db.series
        let ores := upsert_observations now sres.2 good 1000 db.obs
        ({ db with series := sres.1, obs := ores.1, nextId := db.nextId + 1 }, true)

/-- Folding a per-item action over a run while accumulating the
`OK`/`WARN` counters printed in the end-of-run summary. -/
def runCount {α : Type} (f : DB → α → DB × Bool) (l : List α) (acc : DB × Nat × Nat) :
    DB × Nat × Nat :=
  l.foldl
    (fun a x =>
      let step := f a.1 x
      (step.1, if step.2 then a.2.1 + 1 else a.2.1, if step.2 then a.2.2 else a.2.2 + 1))
    acc

/-- `run_from_config` of `src/ingest/ingest_fred_generic.py`: register the
FRED source once, then process every configured series, isolating
per-series failures and accumulating `ok`/`warn` counts for the final
summary line. -/
def run_from_config (fetch : String → Except String (List ObsRawRow))
    (items : List CfgItem) (now : Nat) (db0 : DB) : DB × Nat × Nat :=
  let sres := upsert_source db0.nextId "FRED" db0.sources
  let db1 := { db0 with sources := sres.1, nextId := db0.nextId + 1 }
  runCount (runSeriesItem fetch now sres.2) items (db1, 0, 0)

/-- `infer_asset_class` of `src/ingest/ingest_fx_csv.py`. -/
def infer_asset_class (symbol : String) : String :=
  let s := symbol.toUpper
  if s.startsWith "XAU" || s.startsWith "XAG" then "metal"
  else if s.length == 6 then "fx"
  else "other"

/-- `symbol_from_path` of `src/ingest/ingest_fx_csv.py`:
basename, split on space, uppercase, strip the .csv suffix. -/
def symbol_from_path (path : String) : String :=
  let base := (path.splitOn "/").getLastD path
  let sym := ((base.splitOn " ").headD base).toUpper
  (sym.replace ".CSV" "").replace ".csv" ""

/-- The per-file body of `ingest_paths`: parse the file, warn if the parse
fails or yields no rows, otherwise register the CSV source and the series
(in the file's own transaction) and upsert the bars. -/
def runPathItem (reader : String → Except String (List PriceRawRow)) (db : DB)
    (path : String) : DB × Bool :=
  let sym := symbol_from_path path
  match reader path with
  | .error _ => (db, false)
  | .ok df =>
    if df.isEmpty then (db, false)
    else
      let ac := infer_asset_class sym
      let sres := upsert_source db.nextId "CSV" db.sources
      let db1 := { db with sources := sres.1, nextId := db.nextId + 1 }
      let seres := FxCsv.upsert_series db1.nextId sres.2 sym ac "D" db1.series
      let db2 := { db1 with series := seres.1, nextId := db1.nextId + 1 }
      let pres := FxCsv.upsert_prices seres.2 df db2.prices
      ({ db2 with prices := pres.1 }, true)

/-- `ingest_paths` of `src/ingest/ingest_fx_csv.py`: process every file,
isolating per-file failures and accumulating the `OK`/`ERR` counters of
the summary line. -/
def ingest_paths (reader : String → Except String (List PriceRawRow))
    (paths : List String) (db0 : DB) : DB × Nat × Nat :=
  runCount (runPathItem reader) paths (db0, 0, 0)

/-- A configured series on which the run only warns: the fetch raises, the
response is empty, or every row is dropped by normalisation. -/
def seriesItemFails (fetch : String → Except String (List ObsRawRow))
    (item : CfgItem) : Prop :=
  match fetch item.code with
  | .error _ => True
  | .ok raws =>
    raws.isEmpty = true ∨ (raws.filter (fun r => r.ts.isSome && r.value.isSome)).isEmpty = true

/-- A file on which the run only warns: the parse raises or the parsed
dataframe is empty. -/
def pathItemFails (reader : String → Except String (List PriceRawRow))
    (path : String) : Prop :=
  match reader path with
  | .error _ => True
  | .ok df => df.isEmpty = true

theorem runSeriesItem_of_fails (fetch : String → Except String (List ObsRawRow))
    (item : CfgItem) (h : seriesItemFails fetch item) (now fredId : Nat) (db : DB) :
    runSeriesItem fetch now fredId db item = (db, false) := by
  unfold seriesItemFails at h
  unfold runSeriesItem
  rcases hf : fetch item.code with e | raws
  · rfl
  · rw [hf] at h
    rcases h with h | h
    · simp [h]
    · by_cases he : raws.isEmpty
      · simp [he]
      · simp [he, h]

theorem runPathItem_of_fails (reader : String → Except String (List PriceRawRow))
    (path : String) (h : pathItemFails reader path) (db : DB) :
    runPathItem reader db path = (db, false) := by
  unfold pathItemFails at h
  unfold runPathItem
  rcases hr : reader path with e | df
  · rfl
  · rw [hr] at h
    simp [h]

theorem runCount_append {α : Type} (f : DB → α → DB × Bool) (l1 l2 : List α)
    (acc : DB × Nat × Nat) :
    runCount f (l1 ++ l2) acc = runCount f l2 (runCount f l1 acc) := by
  simp [runCount, List.foldl_append]

theorem runCount_counts {α : Type} (f : DB → α → DB × Bool) :
    ∀ (l : List α) (acc : DB × Nat × Nat),
      (runCount f l acc).2.1 + (runCount f l acc).2.2 = acc.2.1 + acc.2.2 + l.length := by
  intro l
  induction l with
  | nil => intro acc; simp [runCount]
  | cons x l ih =>
    intro acc
    have hstep : runCount f (x :: l) acc
        = runCount f l
            ((f acc.1 x).1,
              if (f acc.1 x).2 then acc.2.1 + 1 else acc.2.1,
              if (f acc.1 x).2 then acc.2.2 else acc.2.2 + 1) := by
      simp [runCount]
    rw [hstep, ih]
    by_cases hb : (f acc.1 x).2 <;> simp [hb] <;> omega

theorem runCount_shift {α : Type} (f : DB → α → DB × Bool) :
    ∀ (l : List α) (d : DB) (o w : Nat),
      runCount f l (d, o, w)
        = ((runCount f l (d, 0, 0)).1,
            o + (runCount f l (d, 0, 0)).2.1,
            w + (runCount f l (d, 0, 0)).2.2) := by
  intro l
  induction l with
  | nil => intro d o w; simp [runCount]
  | cons x l ih =>
    intro d o w
    have hstep : ∀ (o' w' : Nat), runCount f (x :: l) (d, o', w')
        = runCount f l
            ((f d x).1,
              if (f d x).2 then o' + 1 else o',
              if (f d x).2 then w' else w' + 1) := by
      intro o' w'
      simp [runCount]
    rw [hstep, hstep]
    by_cases hb : (f d x).2
    · simp only [hb, if_true]
      rw [ih ((f d x).1) (o + 1) w, ih ((f d x).1) 1 0]
      simp [Nat.add_assoc, Nat.add_comm 1]
    · have hb' : (f d x).2 = false := by simpa using hb
      simp only [hb', Bool.false_eq_true, if_false]
      rw [ih ((f d x).1) o (w + 1), ih ((f d x).1) 0 1]
      simp [Nat.add_assoc, Nat.add_comm 1]

/-- C9.  In every ingestion run: (1) every configured series is counted
exactly once — `ok + warn` equals the number of configured series, and
likewise `ok + err` equals the number of files in a CSV run; (2) a series
whose fetch fails (raises, returns an empty response, or is empty after
normalisation) is merely counted as a warning: the run's final state and
the counts for all other series are exactly those of the run without it,
so one failure never aborts the batch; (3) the same isolation holds per
file in the CSV run. -/
theorem c9_failure_isolation_and_counts (fetch : String → Except String (List ObsRawRow))
    (reader : String → Except String (List PriceRawRow)) (now : Nat) (db : DB)
    (items pre post : List CfgItem) (bad : CfgItem) (paths ppre ppost : List String)
    (badPath : String) (hbad : seriesItemFails fetch bad)
    (hbadPath : pathItemFails reader badPath) :
    ((run_from_config fetch items now db).2.1 + (run_from_config fetch items now db).2.2
        = items.length) ∧
    (run_from_config fetch (pre ++ bad :: post) now db
        = ((run_from_config fetch (pre ++ post) now db).1,
            (run_from_config fetch (pre ++ post) now db).2.1,
            (run_from_config fetch (pre ++ post) now db).2.2 + 1)) ∧
    ((ingest_paths reader paths db).2.1 + (ingest_paths reader paths db).2.2
        = paths.length) ∧
    (ingest_paths reader (ppre ++ badPath :: ppost) db
        = ((ingest_paths reader (ppre ++ ppost) db).1,
            (ingest_paths reader (ppre ++ ppost) db).2.1,
            (ingest_paths reader (ppre ++ ppost) db).2.2 + 1)) := by
  have isolation : ∀ {α : Type} (f : DB → α → DB × Bool) (l1 l2 : List α) (x : α)
      (acc : DB × Nat × Nat), (∀ d, f d x = (d, false)) →
      runCount f (l1 ++ x :: l2) acc
        = ((runCount f (l1 ++ l2) acc).1,
            (runCount f (l1 ++ l2) acc).2.1,
            (runCount f (l1 ++ l2) acc).2.2 + 1) := by
    intro α f l1 l2 x acc hx
    rw [runCount_append, runCount_append]
    set mid := runCount f l1 acc with hmid
    have hstep : runCount f (x :: l2) mid
        = runCount f l2 (mid.1, mid.2.1, mid.2.2 + 1) := by
      simp [runCount, hx mid.1]
    rw [hstep]
    rw [runCount_shift f l2 mid.1 mid.2.1 (mid.2.2 + 1),
      runCount_shift f l2 mid.1 mid.2.1 mid.2.2]
    simp [Nat.add_assoc, Nat.add_comm 1]
  refine ⟨?_, ?_, ?_, ?_⟩
  · unfold run_from_config
    rw [runCount_counts]
    simp
  · unfold run_from_config
    exact isolation _ pre post bad _ (fun d =>
      runSeriesItem_of_fails fetch bad hbad now _ d)
  · unfold ingest_paths
    rw [runCount_counts]
    simp
  · unfold ingest_paths
    exact isolation _ ppre ppost badPath _ (fun d =>
      runPathItem_of_fails reader badPath hbadPath d)

/-- Witness for C9 at concrete inputs: a two-series config whose second
series fails to fetch, and a two-file CSV run whose first file parses to an
empty dataframe. -/
theorem c9_failure_isolation_and_counts_witness :
    seriesItemFails (fun c => if c == "ICSA" then Except.ok [⟨some 0, some 1⟩]
        else Except.error "boom") ⟨"T10Y3M", "D"⟩ ∧
    pathItemFails (fun p => if p == "data/csv/EURUSD D1.csv"
        then Except.ok [⟨some 0, some 1, some 2, some 1, some 1, none, some 3⟩]
        else Except.ok []) "data/csv/XAUUSD D1.csv" ∧
    ((run_from_config (fun c => if c == "ICSA" then Except.ok [⟨some 0, some 1⟩]
          else Except.error "boom") [⟨"ICSA", "ME"⟩, ⟨"T10Y3M", "D"⟩] 7
          ⟨[], [], [], [], 0⟩).2.1
        + (run_from_config (fun c => if c == "ICSA" then Except.ok [⟨some 0, some 1⟩]
            else Except.error "boom") [⟨"ICSA", "ME"⟩, ⟨"T10Y3M", "D"⟩] 7
            ⟨[], [], [], [], 0⟩).2.2 = 2) ∧
    (run_from_config (fun c => if c == "ICSA" then Except.ok [⟨some 0, some 1⟩]
          else Except.error "boom") ([⟨"ICSA", "ME"⟩] ++ ⟨"T10Y3M", "D"⟩ :: []) 7
          ⟨[], [], [], [], 0⟩
        = ((run_from_config (fun c => if c == "ICSA" then Except.ok [⟨some 0, some 1⟩]
              else Except.error "boom") ([⟨"ICSA", "ME"⟩] ++ []) 7 ⟨[], [], [], [], 0⟩).1,
            (run_from_config (fun c => if c == "ICSA" then Except.ok [⟨some 0, some 1⟩]
              else Except.error "boom") ([⟨"ICSA", "ME"⟩] ++ []) 7 ⟨[], [], [], [], 0⟩).2.1,
            (run_from_config (fun c => if c == "ICSA" then Except.ok [⟨some 0, some 1⟩]
              else Except.error "boom") ([⟨"ICSA", "ME"⟩] ++ []) 7
              ⟨[], [], [], [], 0⟩).2.2 + 1)) := by
  have h1 : seriesItemFails (fun c => if c == "ICSA" then Except.ok [⟨some 0, some 1⟩]
      else Except.error "boom") ⟨"T10Y3M", "D"⟩ := by
    simp [seriesItemFails]
  have h2 : pathItemFails (fun p => if p == "data/csv/EURUSD D1.csv"
      then Except.ok [⟨some 0, some 1, some 2, some 1, some 1, none, some 3⟩]
      else Except.ok []) "data/csv/XAUUSD D1.csv" := by
    simp [pathItemFails]
  have main := c9_failure_isolation_and_counts
    (fun c => if c == "ICSA" then Except.ok [⟨some 0, some 1⟩] else Except.error "boom")
    (fun p => if p == "data/csv/EURUSD D1.csv"
      then Except.ok [⟨some 0, some 1, some 2, some 1, some 1, none, some 3⟩]
      else Except.ok [])
    7 ⟨[], [], [], [], 0⟩ [⟨"ICSA", "ME"⟩, ⟨"T10Y3M", "D"⟩] [⟨"ICSA", "ME"⟩] []
    ⟨"T10Y3M", "D"⟩ ["a"] [] [] "data/csv/XAUUSD D1.csv" h1 h2
  exact ⟨h1, h2, main.1, main.2.1⟩

/-! ### Analytics engine (src/reports/analytics.py)

Monthly series are association lists from month indices (`Int`) to values.
`MSeries` is a series without missing values (what the loaders return after
`dropna`); `OSeries` carries `Option ℝ` values, with `none` standing for a
pandas `NaN`. -/

abbrev MSeries := List (Int × ℝ)

abbrev OSeries := List (Int × Option ℝ)

/-- View a NaN-free series as an `OSeries`. -/
def withOpt (s : MSeries) : OSeries := s.map (fun p => (p.1, some p.2))

/-- Worker for `shiftPos`: walks the series keeping each index label and
replacing the value at position `i` with the value at position `i - L` of
the original series (`none` out of range). -/
def shiftPosFrom (s : OSeries) (L : Int) : Nat → OSeries → OSeries
  | _, [] => []
  | i, p :: rest =>
    (p.1,
      if (i : Int) - L < 0 then none
      else
        match s.get? ((i : Int) - L).toNat with
        | some q => q.2
        | none => none) :: shiftPosFrom s L (i + 1) rest

/-- Pandas `Series.shift(L)` (no `freq` argument): the index is kept and the
data moves by `L` positions, so the value at position `i` becomes the value
formerly at position `i - L`, with `NaN` filled at the boundary.  Note this
is positional, not a calendar shift. -/
def shiftPos (L : Int) (s : OSeries) : OSeries := shiftPosFrom s L 0 s

/-- The calendar shift as the spec words it: "shift the normalized indicator
series by L months" — each observation's month index moves by `L`.  Stated
from the spec for comparison with the positional `shiftPos` used by the
code. -/
def calendarShift (L : Int) (s : OSeries) : OSeries := s.map (fun p => (p.1 + L, p.2))

/-- `pd.concat([a, b], axis=1, join="inner").dropna()`: keep the index labels
present in both series and drop every row where either side is `NaN`,
yielding the aligned value pairs. -/
def innerJoinDropNa (a b : OSeries) : List (ℝ × ℝ) :=
  a.filterMap (fun p =>
    match p.2, b.find? (fun q => q.1 == p.1) with
    | some x, some q =>
      match q.2 with
      | some y => some (x, y)
      | _ => none
    | _, _ => none)

/-- The finite (non-NaN) values of a series, as used by the `skipna=True`
statistics. -/
def vals (x : OSeries) : List ℝ := x.filterMap (fun p => p.2)

/-- `x.mean(skipna=True)`. -/
noncomputable def meanSkipna (x : OSeries) : ℝ := (vals x).sum / (vals x).length

/-- `x.std(skipna=True) ** 2`: the pandas default is the *sample* variance
(`ddof=1`), dividing by `n - 1`. -/
noncomputable def sampleVar (x : OSeries) : ℝ :=
  ((vals x).map (fun v => (v - meanSkipna x) ^ 2)).sum / (((vals x).length : ℝ) - 1)

/-- The population variance, dividing by `n`, as the spec words the z-score
("using population statistics").  Stated from the spec for comparison with
the `ddof=1` variance the code computes. -/
noncomputable def popVar (x : OSeries) : ℝ :=
  ((vals x).map (fun v => (v - meanSkipna x) ^ 2)).sum / ((vals x).length : ℝ)

open Classical in
/-- `_zscore` of `src/reports/analytics.py`: `sd = x.std(skipna=True)` is NaN
when fewer than two finite values exist (`ddof=1`); if `sd` is NaN or zero
the result is a zero series over the same index, otherwise `(x - mu) / sd`
elementwise (NaN positions stay NaN). -/
noncomputable def zscore (x : OSeries) : OSeries :=
  if (vals x).length < 2 then x.map (fun p => (p.1, some 0))
  else if sampleVar x = 0 then x.map (fun p => (p.1, some 0))
  else x.map (fun p =>
    (p.1, p.2.map (fun v => (v - meanSkipna x) / Real.sqrt (sampleVar x))))

open Classical in
/-- The z-score as the spec words it: identical to `zscore` but with the
population standard deviation.  Stated from the spec for comparison. -/
noncomputable def zscore_spec (x : OSeries) : OSeries :=
  if (vals x).length < 2 then x.map (fun p => (p.1, some 0))
  else if popVar x = 0 then x.map (fun p => (p.1, some 0))
  else x.map (fun p =>
    (p.1, p.2.map (fun v => (v - meanSkipna x) / Real.sqrt (popVar x))))

open Classical in
/-- Pearson correlation of a list of aligned pairs, as computed by
`Series.corr`: NaN (here `none`) when no pairs remain or either side has
zero variance, else `cov / (sd_x * sd_y)`. -/
noncomputable def pearson (l : List (ℝ × ℝ)) : Option ℝ :=
  let n : ℝ := l.length
  let mx := (l.map (fun p => p.1)).sum / n
  let my := (l.map (fun p => p.2)).sum / n
  let vx := (l.map (fun p => (p.1 - mx) ^ 2)).sum
  let vy := (l.map (fun p => (p.2 - my) ^ 2)).sum
  let cov := (l.map (fun p => (p.1 - mx) * (p.2 - my))).sum
  if l.length = 0 then none
  else if vx = 0 ∨ vy = 0 then none
  else some (cov / (Real.sqrt vx * Real.sqrt vy))

open Classical in
/-- `_corr_at_lag(ret, macro_m, lag_m, min_obs=24)` of
`src/reports/analytics.py`: positional shift of the (already normalised)
indicator, inner join with the return series, drop missing pairs, return
NaN when fewer than `min_obs` pairs remain, else their Pearson
correlation. -/
noncomputable def corr_at_lag (ret : MSeries) (macro_m : OSeries) (lag_m : Int)
    (min_obs : Nat) : Option ℝ :=
  let df := innerJoinDropNa (withOpt ret) (shiftPos lag_m macro_m)
  if df.length < min_obs then none else pearson df

open Classical in
/-- The lag correlation as the spec words it: identical to `corr_at_lag`
except that the indicator is shifted by `L` calendar months.  Stated from
the spec for comparison with the positional shift of the code. -/
noncomputable def corr_at_lag_spec (ret : MSeries) (macro_m : OSeries) (lag_m : Int)
    (min_obs : Nat) : Option ℝ :=
  let df := innerJoinDropNa (withOpt ret) (calendarShift lag_m macro_m)
  if df.length < min_obs then none else pearson df

open Classical in
/-- One IC cell of `build_ic_payload`: the indicator shifted by `L` is
aligned against `next_ret = ret.shift(-1)` (the following month's return),
with the same `min_obs` gate as the lag correlation. -/
noncomputable def ic_at_lag (ret : MSeries) (z : OSeries) (lag : Int)
    (min_obs : Nat) : Option ℝ :=
  let aligned := innerJoinDropNa (shiftPos (-1) (withOpt ret)) (shiftPos lag z)
  if aligned.length < min_obs then none else pearson aligned

/-- `list(range(lag_min, lag_max + 1))`. -/
def intRange (a b : Int) : List Int :=
  (List.range (b + 1 - a).toNat).map (fun i : Nat => (a + i : Int))

/-- `build_heatmap_matrix` of `src/reports/analytics.py`, parameterised by
the loaded return series and the per-code loaded macro series (the
database reads are the out-of-scope query boundary): one row per macro
code; a row of NaNs when the macro or return series is empty, otherwise
the lag correlations of the z-scored indicator. -/
noncomputable def build_heatmap_matrix (ret_m : MSeries) (codes : List String)
    (macroOf : String → MSeries) (lag_min lag_max : Int) (min_obs : Nat) :
    List (String × List (Option ℝ)) :=
  codes.map (fun code =>
    let m := macroOf code
    if m.isEmpty || ret_m.isEmpty then
      (code, (intRange lag_min lag_max).map (fun _ => none))
    else
      (code, (intRange lag_min lag_max).map
        (fun L => corr_at_lag ret_m (zscore (withOpt m)) L min_obs)))

/-- `build_ic_payload` of `src/reports/analytics.py`, parameterised like
`build_heatmap_matrix`: per code the list of lags and the IC value per lag,
all NaN when the macro or return series is empty. -/
noncomputable def build_ic_payload (ret_m : MSeries) (codes : List String)
    (macroOf : String → MSeries) (lag_min lag_max : Int) (min_obs : Nat) :
    List (String × List Int × List (Option ℝ)) :=
  codes.map (fun code =>
    let m := macroOf code
    if m.isEmpty || ret_m.isEmpty then
      (code, intRange lag_min lag_max, (intRange lag_min lag_max).map (fun _ => none))
    else
      (code, intRange lag_min lag_max, (intRange lag_min lag_max).map
        (fun L => ic_at_lag ret_m (zscore (withOpt m)) L min_obs)))

/-! ### Generic analytics lemmas -/

theorem innerJoinDropNa_length_le (a b : OSeries) :
    (innerJoinDropNa a b).length ≤ a.length :=
  List.length_filterMap_le _ _

theorem shiftPosFrom_length (s : OSeries) (L : Int) :
    ∀ (i : Nat) (t : OSeries), (shiftPosFrom s L i t).length = t.length := by
  intro i t
  induction t generalizing i with
  | nil => simp [shiftPosFrom]
  | cons p rest ih => simp [shiftPosFrom, ih]

theorem shiftPos_length (L : Int) (s : OSeries) : (shiftPos L s).length = s.length :=
  shiftPosFrom_length s L 0 s

theorem sum_of_const {l : List ℝ} {c : ℝ} (h : ∀ a ∈ l, a = c) :
    l.sum = l.length * c := by
  induction l with
  | nil => simp
  | cons a t ih =>
    have ha : a = c := h a (by simp)
    have ht : ∀ b ∈ t, b = c := fun b hb => h b (by simp [hb])
    rw [List.sum_cons, ih ht, ha, List.length_cons]
    push_cast
    ring

/-- For a constant series with at least two finite values the sample
variance is zero. -/
theorem sampleVar_of_const (x : OSeries) (h2 : 2 ≤ (vals x).length)
    (hconst : ∀ a ∈ vals x, ∀ b ∈ vals x, a = b) : sampleVar x = 0 := by
  obtain ⟨c, t, hct⟩ : ∃ c t, vals x = c :: t := by
    rcases hv : vals x with _ | ⟨c, t⟩
    · rw [hv] at h2; simp at h2
    · exact ⟨c, t, rfl⟩
  have hall : ∀ a ∈ vals x, a = c := fun a ha =>
    hconst a ha c (by rw [hct]; simp)
  have hn : ((vals x).length : ℝ) ≠ 0 := by
    have : 0 < (vals x).length := by omega
    positivity
  have hmean : meanSkipna x = c := by
    rw [meanSkipna, sum_of_const hall]
    field_simp
  have hzero : ((vals x).map (fun v => (v - meanSkipna x) ^ 2)).sum = 0 := by
    apply List.sum_eq_zero
    intro y hy
    rcases List.mem_map.mp hy with ⟨v, hv, rfl⟩
    rw [hmean, hall v hv]
    ring
  rw [sampleVar, hzero, zero_div]

/-! ### C3: z-score uses the sample, not population, standard deviation -/

/-- C3 counterexample.  On the two-point series `[0, 1]` the code's z-score
divides by the sample standard deviation `sqrt(1/2)` while the claimed
population statistics would divide by `sqrt(1/4) = 1/2`; the outputs
differ. -/
theorem c3_counterexample :
    zscore [((0 : Int), some (0 : ℝ)), (1, some 1)]
      ≠ zscore_spec [((0 : Int), some (0 : ℝ)), (1, some 1)] := by
  intro heq
  have hvals : vals [((0 : Int), some (0 : ℝ)), (1, some 1)] = [0, 1] := by
    simp [vals]
  have hmean : meanSkipna [((0 : Int), some (0 : ℝ)), (1, some 1)] = 1 / 2 := by
    rw [meanSkipna, hvals]
    norm_num
  have hsv : sampleVar [((0 : Int), some (0 : ℝ)), (1, some 1)] = 1 / 2 := by
    rw [sampleVar, hvals]
    simp only [hmean]
    norm_num
  have hpv : popVar [((0 : Int), some (0 : ℝ)), (1, some 1)] = 1 / 4 := by
    rw [popVar, hvals]
    simp only [hmean]
    norm_num
  have hlen : ¬((vals [((0 : Int), some (0 : ℝ)), (1, some 1)]).length < 2) := by
    rw [hvals]
    simp
  have hz : zscore [((0 : Int), some (0 : ℝ)), (1, some 1)]
      = [(0, some ((0 - 1 / 2) / Real.sqrt (1 / 2))),
          (1, some ((1 - 1 / 2) / Real.sqrt (1 / 2)))] := by
    rw [zscore, if_neg hlen, if_neg (by rw [hsv]; norm_num)]
    simp [hmean, hsv]
  have hzs : zscore_spec [((0 : Int), some (0 : ℝ)), (1, some 1)]
      = [(0, some ((0 - 1 / 2) / Real.sqrt (1 / 4))),
          (1, some ((1 - 1 / 2) / Real.sqrt (1 / 4)))] := by
    rw [zscore_spec, if_neg hlen, if_neg (by rw [hpv]; norm_num)]
    simp [hmean, hpv]
  rw [hz, hzs] at heq
  have he : (1 - 1 / 2 : ℝ) / Real.sqrt (1 / 2) = (1 - 1 / 2) / Real.sqrt (1 / 4) := by
    have := List.cons.injEq .. ▸ heq
    simp only [List.cons.injEq, Prod.mk.injEq, Option.some.injEq] at heq
    exact heq.2.1.2
  have h14 : Real.sqrt (1 / 4 : ℝ) = 1 / 2 := by
    rw [show (1 / 4 : ℝ) = (1 / 2) ^ 2 by norm_num,
      Real.sqrt_sq (by norm_num : (0 : ℝ) ≤ 1 / 2)]
  rw [h14] at he
  field_simp at he
  rcases he with he | he
  · have h2 : Real.sqrt 2 ^ 2 = 2 := Real.sq_sqrt (by norm_num)
    rw [he] at h2
    norm_num at h2
  · norm_num at he

/-- C3 amended.  `_zscore` computes `(x - mean) / std` with the *sample*
standard deviation (`ddof = 1`), missing values ignored by the statistics;
whenever the standard deviation is zero or undefined (fewer than two
finite values) — in particular for every constant series — the output is
identically zero (`some 0` at every index, never NaN). -/
theorem c3_zscore_normalization (x : OSeries) :
    ((vals x).length < 2 → zscore x = x.map (fun p => (p.1, some (0 : ℝ)))) ∧
    (sampleVar x = 0 → zscore x = x.map (fun p => (p.1, some (0 : ℝ)))) ∧
    ((∀ a ∈ vals x, ∀ b ∈ vals x, a = b) →
      zscore x = x.map (fun p => (p.1, some (0 : ℝ)))) ∧
    (2 ≤ (vals x).length → sampleVar x ≠ 0 →
      zscore x = x.map (fun p =>
        (p.1, p.2.map (fun v => (v - meanSkipna x) / Real.sqrt (sampleVar x))))) := by
  refine ⟨?_, ?_, ?_, ?_⟩
  · intro h
    rw [zscore, if_pos h]
  · intro h
    by_cases hl : (vals x).length < 2
    · rw [zscore, if_pos hl]
    · rw [zscore, if_neg hl, if_pos h]
  · intro hconst
    by_cases hl : (vals x).length < 2
    · rw [zscore, if_pos hl]
    · have h2 : 2 ≤ (vals x).length := by omega
      rw [zscore, if_neg hl, if_pos (sampleVar_of_const x h2 hconst)]
  · intro h2 hv
    rw [zscore, if_neg (by omega), if_neg hv]

/-- Witness for C3 (amended): the constant series `[5, 5, 5]` z-scores to
all zeros. -/
theorem c3_zscore_normalization_witness :
    (∀ a ∈ vals [((0 : Int), some (5 : ℝ)), (1, some 5), (2, some 5)],
      ∀ b ∈ vals [((0 : Int), some (5 : ℝ)), (1, some 5), (2, some 5)], a = b) ∧
    zscore [((0 : Int), some (5 : ℝ)), (1, some 5), (2, some 5)]
      = [(0, some 0), (1, some 0), (2, some 0)] := by
  have hconst : ∀ a ∈ vals [((0 : Int), some (5 : ℝ)), (1, some 5), (2, some 5)],
      ∀ b ∈ vals [((0 : Int), some (5 : ℝ)), (1, some 5), (2, some 5)], a = b := by
    intro a ha b hb
    simp [vals] at ha hb
    rw [ha, hb]
  refine ⟨hconst, ?_⟩
  rw [(c3_zscore_normalization
    [((0 : Int), some (5 : ℝ)), (1, some 5), (2, some 5)]).2.2.1 hconst]
  simp

/-! ### C7: missing indicators yield all-undefined rows, never omission -/

/-- C7.  The heatmap matrix has exactly one row per configured code (in
order) and the IC payload one entry per code; for every code whose loaded
macro series is empty — or when the benchmark return series is empty —
that row/entry is present with every lag cell `none` (NaN), rather than
the code being omitted (and, the functions being total, nothing is
raised). -/
theorem c7_empty_series_rows (ret_m : MSeries) (codes : List String)
    (macroOf : String → MSeries) (lag_min lag_max : Int) (min_obs : Nat) :
    ((build_heatmap_matrix ret_m codes macroOf lag_min lag_max min_obs).map Prod.fst
        = codes) ∧
    ((build_ic_payload ret_m codes macroOf lag_min lag_max min_obs).map Prod.fst
        = codes) ∧
    (∀ code ∈ codes, ((macroOf code).isEmpty || ret_m.isEmpty) = true →
      ((code, (intRange lag_min lag_max).map (fun _ => (none : Option ℝ)))
          ∈ build_heatmap_matrix ret_m codes macroOf lag_min lag_max min_obs) ∧
      ((code, intRange lag_min lag_max,
          (intRange lag_min lag_max).map (fun _ => (none : Option ℝ)))
          ∈ build_ic_payload ret_m codes macroOf lag_min lag_max min_obs)) := by
  have hmapfst : ∀ {β : Type} (f : String → String × β), (∀ x, (f x).1 = x) →
      ∀ l : List String, (l.map f).map Prod.fst = l := by
    intro β f hf l
    induction l with
    | nil => simp
    | cons a t ih => simp [hf a, ih]
  have hprop : ∀ code, ((macroOf code).isEmpty || ret_m.isEmpty) = true →
      macroOf code = [] ∨ ret_m = [] := by
    intro code h
    simpa using h
  refine ⟨?_, ?_, ?_⟩
  · rw [build_heatmap_matrix]
    apply hmapfst
    intro x
    simp [apply_ite Prod.fst]
  · rw [build_ic_payload]
    apply hmapfst
    intro x
    simp [apply_ite Prod.fst]
  · intro code hcode hempty
    constructor
    · rw [build_heatmap_matrix]
      refine List.mem_map.mpr ⟨code, hcode, ?_⟩
      rcases hprop code hempty with hA | hA <;> simp [hA]
    · rw [build_ic_payload]
      refine List.mem_map.mpr ⟨code, hcode, ?_⟩
      rcases hprop code hempty with hA | hA <;> simp [hA]

/-- Witness for C7: a one-indicator universe whose macro series is empty
still produces a heatmap row and an IC entry of three NaN cells for lags
-1..1. -/
theorem c7_empty_series_rows_witness :
    ("ICSA" ∈ ["ICSA"]) ∧
      ((((fun _ => []) : String → MSeries) "ICSA").isEmpty || ([] : MSeries).isEmpty) = true ∧
      (("ICSA", (intRange (-1) 1).map (fun _ => (none : Option ℝ)))
          ∈ build_heatmap_matrix [] ["ICSA"] (fun _ => []) (-1) 1 24) ∧
      (("ICSA", intRange (-1) 1, (intRange (-1) 1).map (fun _ => (none : Option ℝ)))
          ∈ build_ic_payload [] ["ICSA"] (fun _ => []) (-1) 1 24) := by
  have h1 : "ICSA" ∈ ["ICSA"] := by simp
  have h2 : ((((fun _ => []) : String → MSeries) "ICSA").isEmpty
      || ([] : MSeries).isEmpty) = true := by simp
  have main := (c7_empty_series_rows [] ["ICSA"] (fun _ => []) (-1) 1 24).2.2 "ICSA" h1 h2
  exact ⟨h1, h2, main.1, main.2⟩

/-! ### C8 counterexample: undefined IC equals undefined lag-correlation -/

/-- C8 counterexample.  The claim says IC at lag 0 differs from the lag-0
correlation whenever the benchmark return series is non-constant.  But on a
two-month history (fewer than `min_obs = 24` aligned points) both values
are NaN, hence equal, even though the returns are non-constant. -/
theorem c8_counterexample :
    (∃ p ∈ ([(0, (1 : ℝ)), (1, -1)] : MSeries),
      ∃ q ∈ ([(0, (1 : ℝ)), (1, -1)] : MSeries), p.2 ≠ q.2) ∧
    ic_at_lag [(0, (1 : ℝ)), (1, -1)] (zscore (withOpt [(0, (1 : ℝ)), (1, -1)])) 0 24
      = corr_at_lag [(0, (1 : ℝ)), (1, -1)]
          (zscore (withOpt [(0, (1 : ℝ)), (1, -1)])) 0 24 := by
  constructor
  · exact ⟨(0, 1), by simp, (1, -1), by simp, by norm_num⟩
  · have hic : ic_at_lag [(0, (1 : ℝ)), (1, -1)]
        (zscore (withOpt [(0, (1 : ℝ)), (1, -1)])) 0 24 = none := by
      have hlen : (innerJoinDropNa (shiftPos (-1) (withOpt [(0, (1 : ℝ)), (1, -1)]))
          (shiftPos 0 (zscore (withOpt [(0, (1 : ℝ)), (1, -1)])))).length < 24 := by
        have h1 := innerJoinDropNa_length_le
          (shiftPos (-1) (withOpt [(0, (1 : ℝ)), (1, -1)]))
          (shiftPos 0 (zscore (withOpt [(0, (1 : ℝ)), (1, -1)])))
        rw [shiftPos_length] at h1
        have h2 : (withOpt [(0, (1 : ℝ)), (1, -1)]).length = 2 := by
          simp [withOpt]
        omega
      simp only [ic_at_lag]
      rw [if_pos hlen]
    have hcorr : corr_at_lag [(0, (1 : ℝ)), (1, -1)]
        (zscore (withOpt [(0, (1 : ℝ)), (1, -1)])) 0 24 = none := by
      have hlen : (innerJoinDropNa (withOpt [(0, (1 : ℝ)), (1, -1)])
          (shiftPos 0 (zscore (withOpt [(0, (1 : ℝ)), (1, -1)])))).length < 24 := by
        have h1 := innerJoinDropNa_length_le (withOpt [(0, (1 : ℝ)), (1, -1)])
          (shiftPos 0 (zscore (withOpt [(0, (1 : ℝ)), (1, -1)])))
        have h2 : (withOpt [(0, (1 : ℝ)), (1, -1)]).length = 2 := by
          simp [withOpt]
        omega
      simp only [corr_at_lag]
      rw [if_pos hlen]
    rw [hic, hcorr]

/-! ### Pearson correlation of perfectly linear pairs -/

theorem sum_affine (l : List (ℝ × ℝ)) (a b : ℝ) :
    (l.map (fun p => a * p.1 + b)).sum
      = a * (l.map (fun p => p.1)).sum + (l.length : ℝ) * b := by
  induction l with
  | nil => simp
  | cons p t ih =>
    simp only [List.map_cons, List.sum_cons, ih, List.length_cons]
    push_cast
    ring

/-- Pearson correlation of exactly linearly related pairs is the sign of the
slope. -/
theorem pearson_linear (l : List (ℝ × ℝ)) (a b : ℝ) (ha : a ≠ 0)
    (hab : ∀ p ∈ l, p.2 = a * p.1 + b)
    (hvx : (l.map (fun p =>
      (p.1 - (l.map (fun p => p.1)).sum / (l.length : ℝ)) ^ 2)).sum ≠ 0) :
    pearson l = some (if 0 < a then 1 else -1) := by
  have hl0 : l ≠ [] := by
    rintro rfl
    simp at hvx
  have hlen0 : ¬(l.length = 0) := by
    simpa [List.length_eq_zero] using hl0
  have hnne : ((l.length : ℝ)) ≠ 0 := by
    exact_mod_cast hlen0
  have hmy : (l.map (fun p => p.2)).sum / (l.length : ℝ)
      = a * ((l.map (fun p => p.1)).sum / (l.length : ℝ)) + b := by
    rw [List.map_congr_left hab, sum_affine]
    field_simp
    ring
  simp only [pearson, hmy]
  rw [if_neg hlen0]
  set mx := (l.map (fun p => p.1)).sum / (l.length : ℝ) with hmx
  set vx := (l.map (fun p => (p.1 - mx) ^ 2)).sum with hvxdef
  have hvy : (l.map (fun p => (p.2 - (a * mx + b)) ^ 2)).sum = a ^ 2 * vx := by
    have h1 : l.map (fun p => (p.2 - (a * mx + b)) ^ 2)
        = l.map (fun p => a ^ 2 * (p.1 - mx) ^ 2) := by
      apply List.map_congr_left
      intro p hp
      rw [hab p hp]
      ring
    rw [h1, List.sum_map_mul_left]
  have hcov : (l.map (fun p => (p.1 - mx) * (p.2 - (a * mx + b)))).sum = a * vx := by
    have h1 : l.map (fun p => (p.1 - mx) * (p.2 - (a * mx + b)))
        = l.map (fun p => a * ((p.1 - mx) * (p.1 - mx))) := by
      apply List.map_congr_left
      intro p hp
      rw [hab p hp]
      ring
    rw [h1, List.sum_map_mul_left, hvxdef]
    have h2 : l.map (fun p => (p.1 - mx) * (p.1 - mx))
        = l.map (fun p => (p.1 - mx) ^ 2) := by
      apply List.map_congr_left
      intro p _
      ring
    rw [h2]
  rw [hvy, hcov]
  have hvxnn : 0 ≤ vx := by
    apply List.sum_nonneg
    intro y hy
    rcases List.mem_map.mp hy with ⟨p, _, rfl⟩
    positivity
  have hvxpos : 0 < vx := lt_of_le_of_ne hvxnn (Ne.symm hvx)
  rw [if_neg (by push_neg; exact ⟨hvx, mul_ne_zero (pow_ne_zero 2 ha) hvx⟩)]
  congr 1
  rw [Real.sqrt_mul (sq_nonneg a), Real.sqrt_sq_eq_abs]
  have hsq : Real.sqrt vx * Real.sqrt vx = vx := Real.mul_self_sqrt hvxnn
  have hsqpos : 0 < Real.sqrt vx := Real.sqrt_pos.mpr hvxpos
  by_cases hapos : 0 < a
  · rw [if_pos hapos, abs_of_pos hapos]
    have hd : Real.sqrt vx * (a * Real.sqrt vx) = a * vx := by
      calc Real.sqrt vx * (a * Real.sqrt vx) = a * (Real.sqrt vx * Real.sqrt vx) := by ring
        _ = a * vx := by rw [hsq]
    rw [hd, div_self (mul_ne_zero ha (ne_of_gt hvxpos))]
  · have haneg : a < 0 := lt_of_le_of_ne (not_lt.mp hapos) ha
    rw [if_neg hapos, abs_of_neg haneg]
    have hd : Real.sqrt vx * (-a * Real.sqrt vx) = -(a * vx) := by
      calc Real.sqrt vx * (-a * Real.sqrt vx) = -(a * (Real.sqrt vx * Real.sqrt vx)) := by
            ring
        _ = -(a * vx) := by rw [hsq]
    rw [hd, div_neg, div_self (mul_ne_zero ha (ne_of_gt hvxpos))]

/-! ### C4: lag correlation, its min_obs gate, and the positional shift -/

theorem zscore_eq_of_nondegenerate (x : OSeries) (h2 : ¬((vals x).length < 2))
    (hv : sampleVar x ≠ 0) :
    zscore x = x.map (fun p =>
      (p.1, p.2.map (fun v => (v - meanSkipna x) / Real.sqrt (sampleVar x)))) := by
  rw [zscore, if_neg h2, if_neg hv]

theorem shiftPosFrom_map_fst (s : OSeries) (L : Int) :
    ∀ (i : Nat) (t : OSeries), (shiftPosFrom s L i t).map Prod.fst = t.map Prod.fst := by
  intro i t
  induction t generalizing i with
  | nil => simp [shiftPosFrom]
  | cons p rest ih => simp [shiftPosFrom, ih]

theorem shiftPos_map_fst (L : Int) (s : OSeries) :
    (shiftPos L s).map Prod.fst = s.map Prod.fst :=
  shiftPosFrom_map_fst s L 0 s

theorem any_fst {α β : Type} (l : List (α × β)) (p : α → Bool) :
    l.any (fun q => p q.1) = (l.map Prod.fst).any p := by
  induction l with
  | nil => simp
  | cons q t ih => simp [ih]

/-- Every aligned pair comes from a month of `a` that is also a month of
`b`, so the aligned count is bounded by the index overlap. -/
theorem innerJoin_length_le_overlap (a b : OSeries) :
    (innerJoinDropNa a b).length
      ≤ (a.filter (fun p => b.any (fun q => q.1 == p.1))).length := by
  induction a with
  | nil => simp [innerJoinDropNa]
  | cons p t ih =>
    simp only [innerJoinDropNa] at ih ⊢
    rw [List.filterMap_cons, List.filter_cons]
    rcases hp2 : p.2 with _ | x
    · simp only [hp2]
      by_cases hpred : (b.any (fun q => q.1 == p.1)) = true <;> simp [hpred] <;> omega
    · rcases hfind : b.find? (fun q => q.1 == p.1) with _ | q
      · simp only [hp2, hfind]
        by_cases hpred : (b.any (fun q => q.1 == p.1)) = true <;> simp [hpred] <;> omega
      · have hqsat : (fun q => q.1 == p.1) q = true :=
          @List.find?_some _ (fun r => r.1 == p.1) q b hfind
        have hpred : (b.any (fun q => q.1 == p.1)) = true :=
          List.any_eq_true.mpr ⟨q, List.mem_of_find?_eq_some hfind, hqsat⟩
        rcases hq2 : q.2 with _ | y <;>
          simp only [hp2, hfind, hq2, hpred, if_true] <;> simp <;> omega

/-- C4 counterexample.  The claim describes the shift as "by L months", but
`Series.shift` is positional.  With an indicator whose monthly index has
gaps (z-scored from observations in months 0 and 2) and returns in months
1 and 3, a lag of one *month* would align both points (Pearson +1 with
min_obs = 2), while the code's positional shift aligns nothing and yields
NaN.  The two procedures disagree. -/
theorem c4_counterexample :
    (corr_at_lag [((1 : Int), (1 : ℝ)), (3, -1)]
        (zscore (withOpt [((0 : Int), (1 : ℝ)), (2, -1)])) 1 2 = none) ∧
    (corr_at_lag_spec [((1 : Int), (1 : ℝ)), (3, -1)]
        (zscore (withOpt [((0 : Int), (1 : ℝ)), (2, -1)])) 1 2 = some 1) ∧
    corr_at_lag [((1 : Int), (1 : ℝ)), (3, -1)]
        (zscore (withOpt [((0 : Int), (1 : ℝ)), (2, -1)])) 1 2
      ≠ corr_at_lag_spec [((1 : Int), (1 : ℝ)), (3, -1)]
          (zscore (withOpt [((0 : Int), (1 : ℝ)), (2, -1)])) 1 2 := by
  have hvals : vals (withOpt [((0 : Int), (1 : ℝ)), (2, -1)]) = [1, -1] := by
    simp [vals, withOpt]
  have hmean : meanSkipna (withOpt [((0 : Int), (1 : ℝ)), (2, -1)]) = 0 := by
    rw [meanSkipna, hvals]
    norm_num
  have hsv : sampleVar (withOpt [((0 : Int), (1 : ℝ)), (2, -1)]) = 2 := by
    rw [sampleVar, hvals]
    simp only [hmean]
    norm_num
  have hz : zscore (withOpt [((0 : Int), (1 : ℝ)), (2, -1)])
      = [((0 : Int), some ((1 - 0) / Real.sqrt 2)), (2, some ((-1 - 0) / Real.sqrt 2))] := by
    rw [zscore_eq_of_nondegenerate _ (by rw [hvals]; simp) (by rw [hsv]; norm_num)]
    simp only [hmean, hsv]
    simp [withOpt]
  have hnone : corr_at_lag [((1 : Int), (1 : ℝ)), (3, -1)]
      (zscore (withOpt [((0 : Int), (1 : ℝ)), (2, -1)])) 1 2 = none := by
    have hjoin : innerJoinDropNa (withOpt [((1 : Int), (1 : ℝ)), (3, -1)])
        (shiftPos 1 (zscore (withOpt [((0 : Int), (1 : ℝ)), (2, -1)]))) = [] := by
      rw [hz]
      simp [innerJoinDropNa, shiftPos, shiftPosFrom, withOpt, List.find?]
    simp only [corr_at_lag]
    rw [if_pos (by rw [hjoin]; simp)]
  have hsome : corr_at_lag_spec [((1 : Int), (1 : ℝ)), (3, -1)]
      (zscore (withOpt [((0 : Int), (1 : ℝ)), (2, -1)])) 1 2 = some 1 := by
    have hjoin : innerJoinDropNa (withOpt [((1 : Int), (1 : ℝ)), (3, -1)])
        (calendarShift 1 (zscore (withOpt [((0 : Int), (1 : ℝ)), (2, -1)])))
        = [((1 : ℝ), (1 - 0) / Real.sqrt 2), (-1, (-1 - 0) / Real.sqrt 2)] := by
      rw [hz]
      simp [innerJoinDropNa, calendarShift, withOpt, List.find?]
    simp only [corr_at_lag_spec]
    rw [hjoin, if_neg (by simp)]
    have hs2 : (0 : ℝ) < Real.sqrt 2 := Real.sqrt_pos.mpr (by norm_num)
    have hlin := pearson_linear [((1 : ℝ), (1 - 0) / Real.sqrt 2), (-1, (-1 - 0) / Real.sqrt 2)]
      (Real.sqrt 2)⁻¹ 0 (by positivity)
      (by
        intro p hp
        fin_cases hp <;> (rw [div_eq_mul_inv]; ring))
      (by norm_num)
    rw [hlin, if_pos (by positivity)]
  exact ⟨hnone, hsome, by rw [hnone, hsome]; simp⟩

/-- C4 amended.  `_corr_at_lag` shifts the normalised indicator by `L`
*positions* of its monthly index (which equals L calendar months exactly
when the index has no gaps), inner-joins it with the return series
dropping missing pairs, returns NaN when fewer than `min_obs` (default 24)
aligned points remain — in particular an index overlap of at most 10
months yields NaN at every lag under min_obs = 24 — and otherwise returns
the Pearson correlation of the aligned pairs. -/
theorem c4_min_obs_gate (ret : MSeries) (z : OSeries) (L : Int) (min_obs : Nat) :
    ((innerJoinDropNa (withOpt ret) (shiftPos L z)).length < min_obs →
      corr_at_lag ret z L min_obs = none) ∧
    (min_obs ≤ (innerJoinDropNa (withOpt ret) (shiftPos L z)).length →
      corr_at_lag ret z L min_obs
        = pearson (innerJoinDropNa (withOpt ret) (shiftPos L z))) ∧
    ((ret.filter (fun p => z.any (fun q => q.1 == p.1))).length ≤ 10 →
      corr_at_lag ret z L 24 = none) := by
  have hmonths : ∀ m : Int, (shiftPos L z).any (fun q => q.1 == m)
      = z.any (fun q => q.1 == m) := by
    intro m
    rw [any_fst (shiftPos L z) (fun x => x == m), any_fst z (fun x => x == m),
      shiftPos_map_fst]
  refine ⟨?_, ?_, ?_⟩
  · intro h
    simp only [corr_at_lag]
    rw [if_pos h]
  · intro h
    simp only [corr_at_lag]
    rw [if_neg (not_lt.mpr h)]
  · intro hover
    have hle := innerJoin_length_le_overlap (withOpt ret) (shiftPos L z)
    have hfil : ((withOpt ret).filter
        (fun p => (shiftPos L z).any (fun q => q.1 == p.1))).length
        = (ret.filter (fun p => z.any (fun q => q.1 == p.1))).length := by
      rw [withOpt, List.filter_map, List.length_map]
      apply congrArg List.length
      apply List.filter_congr
      intro p _
      simpa [Function.comp] using hmonths p.1
    rw [hfil] at hle
    simp only [corr_at_lag]
    rw [if_pos (by omega)]

/-- Witness for C4 (amended): a single-month return series against an empty
indicator has overlap 0 ≤ 10, and the lag-0 correlation under the default
min_obs = 24 is NaN. -/
theorem c4_min_obs_gate_witness :
    ((([((0 : Int), (1 : ℝ))] : MSeries).filter
        (fun p => ([] : OSeries).any (fun q => q.1 == p.1))).length ≤ 10) ∧
    corr_at_lag [((0 : Int), (1 : ℝ))] ([] : OSeries) 0 24 = none :=
  ⟨by simp, (c4_min_obs_gate [((0 : Int), (1 : ℝ))] [] 0 24).2.2 (by simp)⟩

/-! ### Join and shift evaluation lemmas -/

theorem shiftPosFrom_id (s : OSeries) :
    ∀ (i : Nat) (t : OSeries), (∀ k : Nat, t.get? k = s.get? (i + k)) →
      shiftPosFrom s 0 i t = t := by
  intro i t
  induction t generalizing i with
  | nil => intro _; rfl
  | cons p rest ih =>
    intro hk
    have h0 : s.get? i = some p := by
      have h := hk 0
      simpa using h.symm
    have hcond : ¬((i : Int) - 0 < 0) := by omega
    have htn : ((i : Int) - 0).toNat = i := by omega
    have htail : ∀ k : Nat, rest.get? k = s.get? (i + 1 + k) := by
      intro k
      have h := hk (k + 1)
      rw [List.get?_cons_succ] at h
      rw [h]
      congr 1
      omega
    simp only [shiftPosFrom]
    rw [if_neg hcond, htn, h0, ih (i + 1) htail]

theorem shiftPos_zero (s : OSeries) : shiftPos 0 s = s :=
  shiftPosFrom_id s 0 s (fun k => by simp)

theorem innerJoin_cons_found (m : Int) (x : ℝ) (a b : OSeries) (q : Int × Option ℝ)
    (y : ℝ) (hf : b.find? (fun r => r.1 == m) = some q) (hq : q.2 = some y) :
    innerJoinDropNa ((m, some x) :: a) b = (x, y) :: innerJoinDropNa a b := by
  simp only [innerJoinDropNa, List.filterMap_cons, hf, hq]

theorem innerJoin_b_cons_notmem (a : OSeries) (q0 : Int × Option ℝ) (b : OSeries)
    (h : ∀ r ∈ a, ¬(r.1 = q0.1)) :
    innerJoinDropNa a (q0 :: b) = innerJoinDropNa a b := by
  simp only [innerJoinDropNa]
  apply List.filterMap_congr
  intro r hr
  have hne : ((fun q => q.1 == r.1) q0) = false := by
    simp only [beq_eq_false_iff_ne]
    exact fun hEq => h r hr hEq.symm
  rw [List.find?_cons_of_neg _ (by simp [hne])]

/-- Joining a NaN-free series against a value-mapped copy of itself pairs
each value with its image. -/
theorem innerJoin_withOpt_mapped (s : MSeries) (f : ℝ → ℝ)
    (hnd : (s.map Prod.fst).Nodup) :
    innerJoinDropNa (withOpt s) ((withOpt s).map (fun p => (p.1, p.2.map f)))
      = s.map (fun p => (p.2, f p.2)) := by
  induction s with
  | nil => rfl
  | cons p t ih =>
    have hnd2 : (p.1 :: t.map Prod.fst).Nodup := by simpa using hnd
    have hnotin : p.1 ∉ t.map Prod.fst := (List.nodup_cons.mp hnd2).1
    have hnd' : (t.map Prod.fst).Nodup := (List.nodup_cons.mp hnd2).2
    have hacons : withOpt (p :: t) = (p.1, some p.2) :: withOpt t := by simp [withOpt]
    have hgcons : ((p.1, some p.2) :: withOpt t).map (fun q => (q.1, q.2.map f))
        = (p.1, some (f p.2)) :: (withOpt t).map (fun q => (q.1, q.2.map f)) := by
      simp
    rw [hacons, hgcons]
    rw [innerJoin_cons_found p.1 p.2 (withOpt t) _ (p.1, some (f p.2)) (f p.2)
      (by simp [List.find?_cons]) rfl]
    rw [innerJoin_b_cons_notmem (withOpt t) (p.1, some (f p.2))
      ((withOpt t).map (fun q => (q.1, q.2.map f)))
      (by
        intro r hr hEq
        rcases List.mem_map.mp hr with ⟨q0, hq0, rfl⟩
        exact hnotin (hEq ▸ List.mem_map_of_mem Prod.fst hq0))]
    rw [ih hnd']
    simp

/-! ### C8 amended: IC and lag-correlation at lag 0 on non-degenerate data -/

/-- A 25-month benchmark/indicator history: values alternate `1, -1, ...`
month by month. -/
def altRet : MSeries :=
  [(0, 1), (1, -1), (2, 1), (3, -1), (4, 1), (5, -1), (6, 1), (7, -1), (8, 1),
   (9, -1), (10, 1), (11, -1), (12, 1), (13, -1), (14, 1), (15, -1), (16, 1),
   (17, -1), (18, 1), (19, -1), (20, 1), (21, -1), (22, 1), (23, -1), (24, 1)]

/-- The z-score transform of the alternating series: mean `1/25`, sample
variance `26/25`. -/
noncomputable def zAlt (v : ℝ) : ℝ := (v - 1 / 25) / Real.sqrt (26 / 25)

set_option maxHeartbeats 2000000 in
/-- C8 amended.  IC at lag 0 correlates the indicator with the *next*
month's return while the lag-correlation at lag 0 uses the concurrent
return, so the two computations genuinely disagree on non-degenerate data:
on 25 months of alternating returns and indicator (perfect concurrent
lockstep), the lag-0 correlation is `+1` while the lag-0 IC is `-1` — but
they are not guaranteed to differ for *every* non-constant return series,
since both are NaN when fewer than `min_obs` points align (see the
counterexample). -/
theorem c8_ic_vs_lag0_on_alternating_data :
    (∃ p ∈ altRet, ∃ q ∈ altRet, p.2 ≠ q.2) ∧
    corr_at_lag altRet (zscore (withOpt altRet)) 0 24 = some 1 ∧
    ic_at_lag altRet (zscore (withOpt altRet)) 0 24 = some (-1) ∧
    corr_at_lag altRet (zscore (withOpt altRet)) 0 24
      ≠ ic_at_lag altRet (zscore (withOpt altRet)) 0 24 := by
  have hvals : vals (withOpt altRet)
      = [1, -1, 1, -1, 1, -1, 1, -1, 1, -1, 1, -1, 1, -1, 1, -1, 1, -1, 1, -1, 1,
         -1, 1, -1, 1] := by
    simp [vals, withOpt, altRet]
  have hlen : ¬((vals (withOpt altRet)).length < 2) := by
    rw [hvals]
    simp
  have hmean : meanSkipna (withOpt altRet) = 1 / 25 := by
    rw [meanSkipna, hvals]
    norm_num
  have hsv : sampleVar (withOpt altRet) = 26 / 25 := by
    rw [sampleVar, hvals]
    simp only [hmean]
    norm_num
  have hzmap : zscore (withOpt altRet)
      = (withOpt altRet).map (fun p => (p.1, p.2.map zAlt)) := by
    rw [zscore_eq_of_nondegenerate _ hlen (by rw [hsv]; norm_num)]
    simp only [hmean, hsv]
    rfl
  have hmfst : altRet.map Prod.fst
      = [0, 1, 2, 3, 4, 5, 6, 7, 8, 9, 10, 11, 12, 13, 14, 15, 16, 17, 18, 19, 20,
         21, 22, 23, 24] := by
    simp [altRet]
  have hnd : (altRet.map Prod.fst).Nodup := by
    rw [hmfst]
    decide
  have hs : (0 : ℝ) < Real.sqrt (26 / 25) := Real.sqrt_pos.mpr (by norm_num)
  have hsinv : (0 : ℝ) < (Real.sqrt (26 / 25))⁻¹ := by positivity
  have hcorr : corr_at_lag altRet (zscore (withOpt altRet)) 0 24 = some 1 := by
    have hcorr_join : innerJoinDropNa (withOpt altRet)
        (shiftPos 0 (zscore (withOpt altRet)))
        = altRet.map (fun p => (p.2, zAlt p.2)) := by
      rw [hzmap, shiftPos_zero, innerJoin_withOpt_mapped altRet zAlt hnd]
    simp only [corr_at_lag]
    rw [hcorr_join, if_neg (by simp [altRet])]
    have hlin := pearson_linear (altRet.map (fun p => (p.2, zAlt p.2)))
      (Real.sqrt (26 / 25))⁻¹ (-(1 / 25 * (Real.sqrt (26 / 25))⁻¹))
      (ne_of_gt hsinv)
      (by
        intro p hp
        rcases List.mem_map.mp hp with ⟨q, _, rfl⟩
        simp only [zAlt]
        rw [div_eq_mul_inv]
        ring)
      (by
        simp only [altRet, List.map_cons, List.map_nil, List.sum_cons, List.sum_nil,
          List.length_cons, List.length_nil]
        norm_num)
    rw [hlin, if_pos hsinv]
  have hic : ic_at_lag altRet (zscore (withOpt altRet)) 0 24 = some (-1) := by
    have hshift : shiftPos (-1) (withOpt altRet)
        = [(0, some (-1)), (1, some 1), (2, some (-1)), (3, some 1), (4, some (-1)),
           (5, some 1), (6, some (-1)), (7, some 1), (8, some (-1)), (9, some 1),
           (10, some (-1)), (11, some 1), (12, some (-1)), (13, some 1),
           (14, some (-1)), (15, some 1), (16, some (-1)), (17, some 1),
           (18, some (-1)), (19, some 1), (20, some (-1)), (21, some 1),
           (22, some (-1)), (23, some 1), (24, none)] := by
      simp [shiftPos, shiftPosFrom, withOpt, altRet]
    have hblit : (withOpt altRet).map (fun p => (p.1, p.2.map zAlt))
        = [(0, some (zAlt 1)), (1, some (zAlt (-1))), (2, some (zAlt 1)),
           (3, some (zAlt (-1))), (4, some (zAlt 1)), (5, some (zAlt (-1))),
           (6, some (zAlt 1)), (7, some (zAlt (-1))), (8, some (zAlt 1)),
           (9, some (zAlt (-1))), (10, some (zAlt 1)), (11, some (zAlt (-1))),
           (12, some (zAlt 1)), (13, some (zAlt (-1))), (14, some (zAlt 1)),
           (15, some (zAlt (-1))), (16, some (zAlt 1)), (17, some (zAlt (-1))),
           (18, some (zAlt 1)), (19, some (zAlt (-1))), (20, some (zAlt 1)),
           (21, some (zAlt (-1))), (22, some (zAlt 1)), (23, some (zAlt (-1))),
           (24, some (zAlt 1))] := by
      simp [withOpt, altRet]
    have hjoin : innerJoinDropNa (shiftPos (-1) (withOpt altRet))
        ((withOpt altRet).map (fun p => (p.1, p.2.map zAlt)))
        = [(-1, zAlt 1), (1, zAlt (-1)), (-1, zAlt 1), (1, zAlt (-1)), (-1, zAlt 1),
           (1, zAlt (-1)), (-1, zAlt 1), (1, zAlt (-1)), (-1, zAlt 1), (1, zAlt (-1)),
           (-1, zAlt 1), (1, zAlt (-1)), (-1, zAlt 1), (1, zAlt (-1)), (-1, zAlt 1),
           (1, zAlt (-1)), (-1, zAlt 1), (1, zAlt (-1)), (-1, zAlt 1), (1, zAlt (-1)),
           (-1, zAlt 1), (1, zAlt (-1)), (-1, zAlt 1), (1, zAlt (-1))] := by
      rw [hshift, hblit]
      simp [innerJoinDropNa, List.find?]
    simp only [ic_at_lag]
    rw [hzmap, shiftPos_zero, hjoin, if_neg (by simp)]
    have hanneg : -(Real.sqrt (26 / 25))⁻¹ < 0 := neg_lt_zero.mpr hsinv
    have hlin := pearson_linear
      [((-1 : ℝ), zAlt 1), (1, zAlt (-1)), (-1, zAlt 1), (1, zAlt (-1)), (-1, zAlt 1),
       (1, zAlt (-1)), (-1, zAlt 1), (1, zAlt (-1)), (-1, zAlt 1), (1, zAlt (-1)),
       (-1, zAlt 1), (1, zAlt (-1)), (-1, zAlt 1), (1, zAlt (-1)), (-1, zAlt 1),
       (1, zAlt (-1)), (-1, zAlt 1), (1, zAlt (-1)), (-1, zAlt 1), (1, zAlt (-1)),
       (-1, zAlt 1), (1, zAlt (-1)), (-1, zAlt 1), (1, zAlt (-1))]
      (-(Real.sqrt (26 / 25))⁻¹) (-(1 / 25 * (Real.sqrt (26 / 25))⁻¹))
      (ne_of_lt hanneg)
      (by
        intro p hp
        fin_cases hp <;> (simp only [zAlt]; rw [div_eq_mul_inv]; ring))
      (by norm_num)
    rw [hlin, if_neg (not_lt.mpr (le_of_lt hanneg))]
  refine ⟨⟨(0, 1), by simp [altRet], (1, -1), by simp [altRet], by norm_num⟩,
    hcorr, hic, ?_⟩
  rw [hcorr, hic]
  simp only [ne_eq, Option.some.injEq]
  norm_num

/-! ### C5: monthly resampling (last observation per calendar month)

Raw observation timestamps are modelled as a calendar month plus a
sub-month position (day/time within the month); `resample("ME")` buckets
by the month component. -/

@[ext]
structure Stamp where
  month : Int
  sub : Nat
deriving DecidableEq, Repr

/-- Chronological order on timestamps. -/
def Stamp.le (a b : Stamp) : Prop :=
  a.month < b.month ∨ (a.month = b.month ∧ a.sub ≤ b.sub)

instance : DecidableRel Stamp.le := fun a b => by
  unfold Stamp.le
  infer_instance

/-- Row order used by `sort_index()`: compare timestamps. -/
def rowLe (p q : Stamp × ℚ) : Prop := Stamp.le p.1 q.1

instance : DecidableRel rowLe := fun p q => by
  unfold rowLe Stamp.le
  infer_instance

instance : IsTotal (Stamp × ℚ) rowLe :=
  ⟨by intro a b; unfold rowLe Stamp.le; omega⟩

instance : IsTrans (Stamp × ℚ) rowLe :=
  ⟨by intro a b c; unfold rowLe Stamp.le; omega⟩

/-- `s.sort_index()`. -/
def sortObs (l : List (Stamp × ℚ)) : List (Stamp × ℚ) := List.insertionSort rowLe l

/-- The full month grid `[a, b]` produced by `resample("ME")`. -/
def monthRange (a b : Int) : List Int :=
  (List.range (b + 1 - a).toNat).map (fun i : Nat => (a + i : Int))

/-- The value `resample("ME").last()` assigns to month `m`: the last (in
sorted order) observation falling inside that month, `NaN` for an empty
bucket. -/
def lastInMonth (m : Int) (s : List (Stamp × ℚ)) : Option ℚ :=
  ((s.filter (fun p => p.1.month == m)).getLast?).map (fun p => p.2)

/-- `_to_monthly_last` of `src/reports/analytics.py`:
`s.sort_index().resample("ME").last()` — the month grid spans from the
first to the last observed month, and each month holds the chronologically
last observation in it (or NaN). -/
def to_monthly_last (l : List (Stamp × ℚ)) : List (Int × Option ℚ) :=
  match sortObs l with
  | [] => []
  | a :: rest =>
    (monthRange a.1.month (((a :: rest).getLast (by simp)).1.month)).map
      (fun m => (m, lastInMonth m (a :: rest)))

/-- The monthly series as consumed downstream (`load_macro_monthly`:
`_to_monthly_last(s).dropna()`): empty months are removed, not filled. -/
def load_macro_monthly (l : List (Stamp × ℚ)) : List (Int × ℚ) :=
  (to_monthly_last l).filterMap (fun p => p.2.map (fun v => (p.1, v)))

theorem Stamp.le_refl (a : Stamp) : Stamp.le a a := by
  unfold Stamp.le
  omega

theorem mem_monthRange (a b m : Int) : m ∈ monthRange a b ↔ a ≤ m ∧ m ≤ b := by
  constructor
  · intro h
    rcases List.mem_map.mp h with ⟨i, hi, hieq⟩
    rw [List.mem_range] at hi
    omega
  · rintro ⟨h1, h2⟩
    exact List.mem_map.mpr ⟨(m - a).toNat, List.mem_range.mpr (by omega), by omega⟩

theorem sorted_le_getLast? (t : List (Stamp × ℚ)) (hsort : t.Sorted rowLe) :
    ∀ x ∈ t, ∀ p0, t.getLast? = some p0 → rowLe x p0 := by
  induction t with
  | nil => simp
  | cons a t ih =>
    intro x hx p0 hlast
    cases t with
    | nil =>
      simp at hlast hx
      rw [hx, ← hlast]
      exact Stamp.le_refl a.1
    | cons b t' =>
      have hlast' : (b :: t').getLast? = some p0 := by
        rw [← List.getLast?_cons_cons]
        exact hlast
      rcases List.mem_cons.mp hx with rfl | hx'
      · have hp0mem : p0 ∈ b :: t' :=
          List.mem_of_mem_getLast? (by rw [hlast']; simp)
        exact (List.sorted_cons.mp hsort).1 p0 hp0mem
      · exact ih (List.sorted_cons.mp hsort).2 x hx' p0 hlast'

theorem eq_of_fst_eq_of_nodup {α β : Type} (l : List (α × β))
    (hnd : (l.map Prod.fst).Nodup) :
    ∀ p ∈ l, ∀ q ∈ l, p.1 = q.1 → p = q := by
  induction l with
  | nil => simp
  | cons a t ih =>
    have hnd2 : a.1 ∉ t.map Prod.fst ∧ (t.map Prod.fst).Nodup := by
      rw [List.map_cons] at hnd
      exact List.nodup_cons.mp hnd
    intro p hp q hq heq
    rcases List.mem_cons.mp hp with rfl | hp' <;> rcases List.mem_cons.mp hq with rfl | hq'
    · rfl
    · exact absurd (heq ▸ List.mem_map_of_mem Prod.fst hq') hnd2.1
    · exact absurd (heq ▸ List.mem_map_of_mem Prod.fst hp') hnd2.1
    · exact ih hnd2.2 p hp' q hq' heq

/-- C5.  Monthly resampling (as consumed by the analytics loaders) maps a
series with pairwise-distinct timestamps to exactly the months that
contain at least one observation — a month with zero observations is
absent, never filled — and the value of each present month is the
chronologically last observation falling in it.  Being a pure function of
the raw series, resampling twice yields identical output. -/
theorem c5_monthly_resampling (l : List (Stamp × ℚ)) (hnd : (l.map Prod.fst).Nodup) :
    (∀ (m : Int) (v : ℚ),
      ((m, v) ∈ load_macro_monthly l ↔
        ∃ p ∈ l, p.1.month = m ∧ p.2 = v ∧
          ∀ q ∈ l, q.1.month = m → Stamp.le q.1 p.1)) ∧
    load_macro_monthly l = load_macro_monthly l := by
  have hperm : (sortObs l).Perm l := List.perm_insertionSort rowLe l
  have hndSorted : ((sortObs l).map Prod.fst).Nodup := by
    exact (hperm.map Prod.fst).nodup_iff.mpr hnd
  have hsort : (sortObs l).Sorted rowLe := List.sorted_insertionSort rowLe l
  refine ⟨?_, rfl⟩
  intro m v
  have hmem1 : (m, v) ∈ load_macro_monthly l ↔ (m, some v) ∈ to_monthly_last l := by
    unfold load_macro_monthly
    rw [List.mem_filterMap]
    constructor
    · rintro ⟨⟨m1, w?⟩, hp, hpv⟩
      rcases w? with _ | w
      · simp at hpv
      · simp only [Option.map_some, Option.some.injEq, Prod.mk.injEq] at hpv
        rcases hpv with ⟨rfl, rfl⟩
        exact hp
    · intro hp
      exact ⟨(m, some v), hp, rfl⟩
  rw [hmem1]
  rcases hs : sortObs l with _ | ⟨a, rest⟩
  · have hleq : l = [] := (hs ▸ hperm).nil_eq.symm
    subst hleq
    constructor
    · intro h
      rw [to_monthly_last, hs] at h
      simp at h
    · rintro ⟨p, hp, _⟩
      simp at hp
  · have hmem2 : (m, some v) ∈ to_monthly_last l ↔
        (m ∈ monthRange a.1.month (((a :: rest).getLast (by simp)).1.month) ∧
          lastInMonth m (a :: rest) = some v) := by
      rw [to_monthly_last, hs, List.mem_map]
      constructor
      · rintro ⟨m', hm', heq⟩
        have h1 : m' = m := congrArg Prod.fst heq
        subst h1
        exact ⟨hm', congrArg Prod.snd heq⟩
      · rintro ⟨h1, h2⟩
        exact ⟨m, h1, by rw [h2]⟩
    rw [hmem2]
    have hmemS : ∀ q : Stamp × ℚ, q ∈ (a :: rest) ↔ q ∈ l := by
      intro q
      rw [← hs]
      exact hperm.mem_iff
    have hsortS : (a :: rest).Sorted rowLe := hs ▸ hsort
    have hndS : ((a :: rest).map Prod.fst).Nodup := hs ▸ hndSorted
    have hfiltmem : ∀ q : Stamp × ℚ,
        q ∈ (a :: rest).filter (fun p => p.1.month == m) ↔
          q ∈ l ∧ q.1.month = m := by
      intro q
      rw [List.mem_filter, hmemS]
      simp
    have hfiltsort : ((a :: rest).filter (fun p => p.1.month == m)).Sorted rowLe :=
      hsortS.filter _
    constructor
    · rintro ⟨hrange, hlast⟩
      rcases hgl : ((a :: rest).filter (fun p => p.1.month == m)).getLast? with _ | p0
      · rw [lastInMonth, hgl] at hlast
        simp at hlast
      · have hp0v : p0.2 = v := by
          rw [lastInMonth, hgl] at hlast
          simpa using hlast
        have hp0mem : p0 ∈ (a :: rest).filter (fun p => p.1.month == m) :=
          List.mem_of_mem_getLast? (by rw [hgl]; simp)
        rcases (hfiltmem p0).mp hp0mem with ⟨hp0l, hp0m⟩
        refine ⟨p0, hp0l, hp0m, hp0v, ?_⟩
        intro q hq hqm
        have hqfilt : q ∈ (a :: rest).filter (fun p => p.1.month == m) :=
          (hfiltmem q).mpr ⟨hq, hqm⟩
        exact sorted_le_getLast? _ hfiltsort q hqfilt p0 hgl
    · rintro ⟨p, hpl, hpm, hpv, hmax⟩
      have hpS : p ∈ (a :: rest) := (hmemS p).mpr hpl
      have hrange : m ∈ monthRange a.1.month (((a :: rest).getLast (by simp)).1.month) := by
        rw [mem_monthRange]
        constructor
        · have hle : rowLe a p := by
            rcases List.mem_cons.mp hpS with rfl | hp'
            · exact Stamp.le_refl p.1
            · exact (List.sorted_cons.mp hsortS).1 p hp'
          unfold rowLe Stamp.le at hle
          omega
        · have hgl := List.getLast?_eq_getLast (a :: rest) (by simp)
          have hle := sorted_le_getLast? _ hsortS p hpS _ hgl
          unfold rowLe Stamp.le at hle
          omega
      have hpfilt : p ∈ (a :: rest).filter (fun q => q.1.month == m) :=
        (hfiltmem p).mpr ⟨hpl, hpm⟩
      rcases hgl : ((a :: rest).filter (fun q => q.1.month == m)).getLast? with _ | p1
      · exfalso
        have hnil : (a :: rest).filter (fun q => q.1.month == m) = [] :=
          List.getLast?_eq_none_iff.mp hgl
        rw [hnil] at hpfilt
        simp at hpfilt
      · have hp1mem : p1 ∈ (a :: rest).filter (fun q => q.1.month == m) :=
          List.mem_of_mem_getLast? (by rw [hgl]; simp)
        rcases (hfiltmem p1).mp hp1mem with ⟨hp1l, hp1m⟩
        have hle1 : Stamp.le p.1 p1.1 := sorted_le_getLast? _ hfiltsort p hpfilt p1 hgl
        have hle2 : Stamp.le p1.1 p.1 := hmax p1 hp1l hp1m
        have hstamp : p.1 = p1.1 := by
          unfold Stamp.le at hle1 hle2
          ext <;> omega
        have hpeq : p = p1 := eq_of_fst_eq_of_nodup l hnd p hpl p1 hp1l hstamp
        refine ⟨hrange, ?_⟩
        rw [lastInMonth, hgl, ← hpeq]
        simp [hpv]

/-- Witness for C5: observations in months 0 (twice, days 2 and 5) and 2,
none in month 1; the monthly series holds month 0 with the day-5 value and
month 2, and month 1 is absent. -/
theorem c5_monthly_resampling_witness :
    ((([(⟨0, 5⟩, (10 : ℚ)), (⟨0, 2⟩, 7), (⟨2, 1⟩, 3)] :
        List (Stamp × ℚ)).map Prod.fst).Nodup) ∧
      (((0 : Int), (10 : ℚ)) ∈
          load_macro_monthly [(⟨0, 5⟩, (10 : ℚ)), (⟨0, 2⟩, 7), (⟨2, 1⟩, 3)] ↔
        ∃ p ∈ ([(⟨0, 5⟩, (10 : ℚ)), (⟨0, 2⟩, 7), (⟨2, 1⟩, 3)] : List (Stamp × ℚ)),
          p.1.month = 0 ∧ p.2 = 10 ∧
            ∀ q ∈ ([(⟨0, 5⟩, (10 : ℚ)), (⟨0, 2⟩, 7), (⟨2, 1⟩, 3)] : List (Stamp × ℚ)),
              q.1.month = 0 → Stamp.le q.1 p.1) :=
  ⟨by decide,
    (c5_monthly_resampling [(⟨0, 5⟩, (10 : ℚ)), (⟨0, 2⟩, 7), (⟨2, 1⟩, 3)]
      (by decide)).1 0 10⟩

/-! ### C10: the benchmark return series comes from one instrument -/

/-- One row of the `load_spx_monthly_returns` query
(`select p.ts, p.close, p.adj_close, s.code as asset_code ... where s.code
in ('^GSPC','SPY') order by p.ts` — modelled against the full price join,
with the `where` and `order by` applied by `spxQuery`). -/
structure PxRow where
  ts : Stamp
  close : Option ℚ
  adj_close : Option ℚ
  asset_code : String
deriving DecidableEq, Repr

def pxLe (p q : PxRow) : Prop := Stamp.le p.ts q.ts

instance : DecidableRel pxLe := fun p q => by
  unfold pxLe Stamp.le
  infer_instance

instance : IsTotal PxRow pxLe :=
  ⟨by intro a b; unfold pxLe Stamp.le; omega⟩

instance : IsTrans PxRow pxLe :=
  ⟨by intro a b c; unfold pxLe Stamp.le; omega⟩

/-- The `where s.code in ('^GSPC','SPY')` predicate. -/
def inScope (r : PxRow) : Bool := r.asset_code == "^GSPC" || r.asset_code == "SPY"

/-- The SQL result set: the price table ordered by `ts` and restricted to
the two benchmark codes. -/
def spxQuery (table : List PxRow) : List PxRow :=
  (List.insertionSort pxLe table).filter inScope

/-- `np.log(px_m).diff().dropna()`: consecutive log differences, indexed by
the later month. -/
noncomputable def logDiff (l : List (Int × ℚ)) : MSeries :=
  (l.zip l.tail).map (fun pq => (pq.2.1, Real.log (pq.2.2 : ℝ) - Real.log (pq.1.2 : ℝ)))

/-- The body of `load_spx_monthly_returns` after the query: empty frame
short-circuit, `preferred` selection (`'^GSPC' if '^GSPC' in codes else
codes[0]`), restriction to the preferred code with non-null close,
`adj_close.fillna(close)`, monthly last, log differences. -/
noncomputable def spxFromQuery : List PxRow → MSeries
  | [] => []
  | r :: rest =>
    let preferred := if (r :: rest).any (fun q => q.asset_code == "^GSPC") then "^GSPC"
      else r.asset_code
    let df := (r :: rest).filter (fun q => q.asset_code == preferred && q.close.isSome)
    logDiff (load_macro_monthly
      (df.map (fun q => (q.ts, q.adj_close.getD (q.close.getD 0)))))

/-- `load_spx_monthly_returns` of `src/reports/analytics.py`, parameterised
by the joined price table. -/
noncomputable def load_spx_monthly_returns (table : List PxRow) : MSeries :=
  spxFromQuery (spxQuery table)

/-- The instrument the loader settles on (None when no benchmark rows
exist). -/
def spxPreferred (table : List PxRow) : Option String :=
  match spxQuery table with
  | [] => none
  | r :: rest =>
    some (if (r :: rest).any (fun q => q.asset_code == "^GSPC") then "^GSPC"
      else r.asset_code)

/-! #### Stable sort commutes with filtering -/

theorem orderedInsert_all_le {α : Type} (r : α → α → Prop) [DecidableRel r]
    (x : α) (l : List α) (h : ∀ y ∈ l, r x y) :
    List.orderedInsert r x l = x :: l := by
  cases l with
  | nil => rfl
  | cons b t =>
    rw [List.orderedInsert, if_pos (h b (by simp))]

theorem filter_orderedInsert {α : Type} (r : α → α → Prop) [DecidableRel r]
    [IsTotal α r] [IsTrans α r] (p : α → Bool) (x : α) :
    ∀ l : List α, l.Sorted r →
      (List.orderedInsert r x l).filter p
        = if p x then List.orderedInsert r x (l.filter p) else l.filter p := by
  intro l
  induction l with
  | nil =>
    intro _
    by_cases hp : p x = true <;> simp [List.orderedInsert, List.filter, hp]
  | cons b t ih =>
    intro hsort
    rcases List.sorted_cons.mp hsort with ⟨hb, ht⟩
    by_cases hrb : r x b
    · rw [List.orderedInsert, if_pos hrb]
      have hxall : ∀ y ∈ (b :: t).filter p, r x y := by
        intro y hy
        rcases List.mem_cons.mp (List.mem_of_mem_filter hy) with rfl | hyt
        · exact hrb
        · exact Trans.trans hrb (hb y hyt)
      by_cases hp : p x = true
      · rw [orderedInsert_all_le r x _ hxall]
        simp [List.filter_cons, hp]
      · have hp' : p x = false := by simpa using hp
        simp [List.filter_cons, hp']
    · rw [List.orderedInsert, if_neg hrb]
      rw [List.filter_cons, List.filter_cons]
      by_cases hpb : p b = true
      · simp only [hpb, if_true]
        rw [ih ht]
        by_cases hp : p x = true
        · rw [if_pos hp, if_pos hp, List.orderedInsert, if_neg hrb]
        · rw [if_neg hp, if_neg hp]
      · have hpb' : p b = false := by simpa using hpb
        simp only [hpb', Bool.false_eq_true, if_false]
        exact ih ht

theorem filter_insertionSort {α : Type} (r : α → α → Prop) [DecidableRel r]
    [IsTotal α r] [IsTrans α r] (p : α → Bool) (l : List α) :
    (List.insertionSort r l).filter p = List.insertionSort r (l.filter p) := by
  induction l with
  | nil => rfl
  | cons a t ih =>
    rw [List.insertionSort, filter_orderedInsert r p a (List.insertionSort r t)
      (List.sorted_insertionSort r t), ih, List.filter_cons]
    by_cases hp : p a = true
    · rw [if_pos hp]
      simp only [hp, if_true]
      rw [List.insertionSort]
    · have hp' : p a = false := by simpa using hp
      rw [if_neg hp]
      simp only [hp', Bool.false_eq_true, if_false]

theorem spxQuery_filter (table : List PxRow) (p : PxRow → Bool) :
    spxQuery (table.filter p) = (spxQuery table).filter p := by
  unfold spxQuery
  rw [← filter_insertionSort pxLe p table, List.filter_filter, List.filter_filter]
  apply List.filter_congr
  intro x _
  rw [Bool.and_comm]

theorem mem_spxQuery (table : List PxRow) (r : PxRow) :
    r ∈ spxQuery table ↔ r ∈ table ∧ inScope r = true := by
  unfold spxQuery
  rw [List.mem_filter, (List.perm_insertionSort pxLe table).mem_iff]

/-- Restricting the query result to the preferred code does not change the
computed return series: the non-preferred rows were discarded anyway. -/
theorem spxFromQuery_restrict (q0 : PxRow) (qrest : List PxRow) (c : String)
    (hc : (if (q0 :: qrest).any (fun q => q.asset_code == "^GSPC") then "^GSPC"
        else q0.asset_code) = c) :
    spxFromQuery ((q0 :: qrest).filter (fun r => r.asset_code == c))
      = spxFromQuery (q0 :: qrest) := by
  by_cases hany : (q0 :: qrest).any (fun q => q.asset_code == "^GSPC") = true
  · rw [if_pos hany] at hc
    subst hc
    rcases List.any_eq_true.mp hany with ⟨g, hgmem, hgcode⟩
    have hgq' : g ∈ (q0 :: qrest).filter (fun r => r.asset_code == "^GSPC") :=
      List.mem_filter.mpr ⟨hgmem, hgcode⟩
    rcases hq' : (q0 :: qrest).filter (fun r => r.asset_code == "^GSPC") with _ | ⟨g0, grest⟩
    · rw [hq'] at hgq'
      simp at hgq'
    · have hgq'' : g ∈ g0 :: grest := hq' ▸ hgq'
      have hany' : (g0 :: grest).any (fun q => q.asset_code == "^GSPC") = true :=
        List.any_eq_true.mpr ⟨g, hgq'', hgcode⟩
      rw [hq']
      simp only [spxFromQuery, hany, hany', if_true]
      have hfilters : (g0 :: grest).filter
            (fun q => q.asset_code == "^GSPC" && q.close.isSome)
          = (q0 :: qrest).filter (fun q => q.asset_code == "^GSPC" && q.close.isSome) := by
        rw [← hq', List.filter_filter]
        apply List.filter_congr
        intro x _
        cases hxc : (x.asset_code == "^GSPC") <;> cases hxcl : x.close.isSome <;>
          simp [hxc, hxcl]
      rw [hfilters]
  · have hany0 : (q0 :: qrest).any (fun q => q.asset_code == "^GSPC") = false := by
      simpa using hany
    rw [if_neg hany] at hc
    subst hc
    have hq0mem : q0 ∈ (q0 :: qrest).filter (fun r => r.asset_code == q0.asset_code) :=
      List.mem_filter.mpr ⟨by simp, by simp⟩
    rcases hq' : (q0 :: qrest).filter (fun r => r.asset_code == q0.asset_code) with
      _ | ⟨g0, grest⟩
    · rw [hq'] at hq0mem
      simp at hq0mem
    · have hg0mem : g0 ∈ (q0 :: qrest).filter (fun r => r.asset_code == q0.asset_code) := by
        rw [hq']
        simp

      have hg0code : g0.asset_code = q0.asset_code := by
        have h := (List.mem_filter.mp hg0mem).2
        simpa using h
      have hany' : (g0 :: grest).any (fun q => q.asset_code == "^GSPC") = false := by
        by_contra h
        rw [Bool.not_eq_false] at h
        rcases List.any_eq_true.mp h with ⟨g, hg, hgc⟩
        have hgQ : g ∈ (q0 :: qrest) := List.mem_of_mem_filter (hq' ▸ hg)
        have htrue : (q0 :: qrest).any (fun q => q.asset_code == "^GSPC") = true :=
          List.any_eq_true.mpr ⟨g, hgQ, hgc⟩
        rw [htrue] at hany0
        simp at hany0
      rw [hq']
      simp only [spxFromQuery, hany0, hany', Bool.false_eq_true, if_false, hg0code]
      have hfilters : (g0 :: grest).filter
            (fun q => q.asset_code == q0.asset_code && q.close.isSome)
          = (q0 :: qrest).filter
            (fun q => q.asset_code == q0.asset_code && q.close.isSome) := by
        rw [← hq', List.filter_filter]
        apply List.filter_congr
        intro x _
        cases hxc : (x.asset_code == q0.asset_code) <;> cases hxcl : x.close.isSome <;>
          simp [hxc, hxcl]
      rw [hfilters]

/-- C10.  The benchmark return series is built exclusively from price rows
whose code is ^GSPC or SPY; when any ^GSPC row exists that instrument is
selected, otherwise the first code found (in timestamp order) is used; and
rows of the non-preferred code are discarded entirely — restricting the
table to the selected instrument leaves the returns unchanged, so every
snapshot's returns come from exactly one instrument. -/
theorem c10_benchmark_single_instrument (table : List PxRow) :
    (load_spx_monthly_returns table
        = load_spx_monthly_returns (table.filter inScope)) ∧
    ((∃ r ∈ table, r.asset_code = "^GSPC") → spxPreferred table = some "^GSPC") ∧
    (∀ q0 qrest, spxQuery table = q0 :: qrest →
      (¬∃ r ∈ table, r.asset_code = "^GSPC") →
      spxPreferred table = some q0.asset_code) ∧
    (∀ c, spxPreferred table = some c →
      load_spx_monthly_returns table
        = load_spx_monthly_returns (table.filter (fun r => r.asset_code == c))) := by
  refine ⟨?_, ?_, ?_, ?_⟩
  · unfold load_spx_monthly_returns
    rw [spxQuery_filter]
    rw [List.filter_eq_self.mpr (fun a ha => ((mem_spxQuery table a).mp ha).2)]
  · rintro ⟨r0, hr0, hcode⟩
    have hscope : inScope r0 = true := by simp [inScope, hcode]
    have hmem : r0 ∈ spxQuery table := (mem_spxQuery table r0).mpr ⟨hr0, hscope⟩
    simp only [spxPreferred]
    rcases hq : spxQuery table with _ | ⟨q0, qrest⟩
    · rw [hq] at hmem
      simp at hmem
    · rw [hq] at hmem
      have hany : (q0 :: qrest).any (fun q => q.asset_code == "^GSPC") = true :=
        List.any_eq_true.mpr ⟨r0, hmem, by simp [hcode]⟩
      simp [hany]
  · intro q0 qrest hq hng
    have hany : (q0 :: qrest).any (fun q => q.asset_code == "^GSPC") = false := by
      by_contra h
      rw [Bool.not_eq_false] at h
      rcases List.any_eq_true.mp h with ⟨q, hqmem, hqcode⟩
      have hqt : q ∈ table := ((mem_spxQuery table q).mp (hq ▸ hqmem)).1
      exact hng ⟨q, hqt, by simpa using hqcode⟩
    simp only [spxPreferred]
    rw [hq]
    simp [hany]
  · intro c hc
    simp only [spxPreferred] at hc
    rcases hq : spxQuery table with _ | ⟨q0, qrest⟩
    · rw [hq] at hc
      simp at hc
    · rw [hq] at hc
      simp only [Option.some.injEq] at hc
      unfold load_spx_monthly_returns
      rw [spxQuery_filter, hq]
      exact (spxFromQuery_restrict q0 qrest c hc).symm

/-- Witness for C10: a table holding SPY, ^GSPC and an out-of-scope AAPL
row selects ^GSPC. -/
theorem c10_benchmark_single_instrument_witness :
    (∃ r ∈ ([⟨⟨0, 1⟩, some 10, none, "SPY"⟩, ⟨⟨1, 1⟩, some 11, none, "^GSPC"⟩,
        ⟨⟨2, 1⟩, some 12, none, "AAPL"⟩] : List PxRow), r.asset_code = "^GSPC") ∧
      spxPreferred [⟨⟨0, 1⟩, some 10, none, "SPY"⟩, ⟨⟨1, 1⟩, some 11, none, "^GSPC"⟩,
        ⟨⟨2, 1⟩, some 12, none, "AAPL"⟩] = some "^GSPC" := by
  have hex : ∃ r ∈ ([⟨⟨0, 1⟩, some 10, none, "SPY"⟩, ⟨⟨1, 1⟩, some 11, none, "^GSPC"⟩,
      ⟨⟨2, 1⟩, some 12, none, "AAPL"⟩] : List PxRow), r.asset_code = "^GSPC" := by
    refine ⟨⟨⟨1, 1⟩, some 11, none, "^GSPC"⟩, by simp, rfl⟩
  exact ⟨hex,
    (c10_benchmark_single_instrument [⟨⟨0, 1⟩, some 10, none, "SPY"⟩,
      ⟨⟨1, 1⟩, some 11, none, "^GSPC"⟩, ⟨⟨2, 1⟩, some 12, none, "AAPL"⟩]).2.1 hex⟩

end LeadMacro
